import Mathlib

/-!
Verification of the pagination core of mcp-hydrolix.

The development shallowly embeds `src/mcp_hydrolix/pagination.py`:
cursor encoding (json.dumps with sort_keys over the field dict, then
URL-safe base64), cursor decoding (lenient base64 a la binascii, strict
UTF-8, a JSON parser matching the Python json module, and dataclass
keyword application), validation, and the SHA-256 query hash.  Python
strings are modelled as lists of Unicode code points, bytes as lists of
naturals below 256.
-/

namespace McpHydrolix

/-- Model of a Python str: a list of Unicode code points. -/
abbrev PyStr := List Nat

/-- Conversion from a Lean string to the code-point model. -/
def pyOfString (s : String) : PyStr := s.data.map Char.toNat

/-- Rebuild a Lean string from code points; only applied to Unicode scalar values. -/
def strOfPy (bs : List Nat) : String := ⟨bs.map Char.ofNat⟩

/-! ## UTF-8 -/

/-- UTF-8 encoding of one code point (total; in the embedding it is only
applied to Unicode scalar values, where it agrees with str.encode). -/
def utf8EncodeCp (c : Nat) : List Nat :=
  if c < 0x80 then [c]
  else if c < 0x800 then [0xC0 + c / 64, 0x80 + c % 64]
  else if c < 0x10000 then [0xE0 + c / 4096, 0x80 + c / 64 % 64, 0x80 + c % 64]
  else [0xF0 + c / 262144, 0x80 + c / 4096 % 64, 0x80 + c / 64 % 64, 0x80 + c % 64]

/-- UTF-8 encoding of a code-point string, as bytes. -/
def utf8Encode (s : PyStr) : List Nat := (s.map utf8EncodeCp).flatten

/-- Decoding of one UTF-8 sequence from a lead byte and the remaining
bytes, as in strict bytes.decode(): rejects truncated and overlong
sequences, surrogates and values above 0x10FFFF.  Returns the code
point and the input after the sequence. -/
def utf8DecodeLead (b : Nat) (rest : List Nat) : Except Unit (Nat × List Nat) :=
  if b < 0x80 then .ok (b, rest)
  else if b < 0xC2 then .error ()
  else if b < 0xE0 then
    match rest with
    | b1 :: rest' =>
      if 0x80 ≤ b1 ∧ b1 < 0xC0 then .ok ((b - 0xC0) * 64 + (b1 - 0x80), rest')
      else .error ()
    | [] => .error ()
  else if b < 0xF0 then
    match rest with
    | b1 :: b2 :: rest' =>
      let v := (b - 0xE0) * 4096 + (b1 - 0x80) * 64 + (b2 - 0x80)
      if 0x80 ≤ b1 ∧ b1 < 0xC0 ∧ 0x80 ≤ b2 ∧ b2 < 0xC0 ∧ 0x800 ≤ v ∧
          ¬ (0xD800 ≤ v ∧ v < 0xE000) then .ok (v, rest')
      else .error ()
    | _ => .error ()
  else if b < 0xF5 then
    match rest with
    | b1 :: b2 :: b3 :: rest' =>
      let v := (b - 0xF0) * 262144 + (b1 - 0x80) * 4096 + (b2 - 0x80) * 64 + (b3 - 0x80)
      if 0x80 ≤ b1 ∧ b1 < 0xC0 ∧ 0x80 ≤ b2 ∧ b2 < 0xC0 ∧ 0x80 ≤ b3 ∧ b3 < 0xC0 ∧
          0x10000 ≤ v ∧ v < 0x110000 then .ok (v, rest')
      else .error ()
    | _ => .error ()
  else .error ()

/-- Strict UTF-8 decoding loop.  The fuel argument only bounds the
number of decoded sequences; each sequence consumes at least one byte,
so any fuel above the byte count suffices and utf8Decode supplies it. -/
def utf8DecodeAux : Nat → List Nat → Except Unit PyStr
  | 0, _ => .error ()
  | _ + 1, [] => .ok []
  | fuel + 1, b :: rest =>
    match utf8DecodeLead b rest with
    | .error _ => .error ()
    | .ok (c, rest') => (utf8DecodeAux fuel rest').map (c :: ·)

/-- Model of strict bytes.decode() into code points. -/
def utf8Decode (bs : List Nat) : Except Unit PyStr := utf8DecodeAux (bs.length + 1) bs

/-! ## Base64 -/

/-- Byte of the standard base64 alphabet for a 6-bit group. -/
def b64CharStd (n : Nat) : Nat :=
  if n < 26 then 65 + n
  else if n < 52 then 97 + (n - 26)
  else if n < 62 then 48 + (n - 52)
  else if n = 62 then 43
  else 47

/-- Standard base64 encoding of a byte list (output is ASCII bytes,
with = padding). -/
def b64encodeBytes : List Nat → List Nat
  | b1 :: b2 :: b3 :: rest =>
    b64CharStd (b1 / 4) :: b64CharStd (b1 % 4 * 16 + b2 / 16) ::
    b64CharStd (b2 % 16 * 4 + b3 / 64) :: b64CharStd (b3 % 64) :: b64encodeBytes rest
  | [b1, b2] => [b64CharStd (b1 / 4), b64CharStd (b1 % 4 * 16 + b2 / 16), b64CharStd (b2 % 16 * 4), 61]
  | [b1] => [b64CharStd (b1 / 4), b64CharStd (b1 % 4 * 16), 61, 61]
  | [] => []

/-- Translation applied by base64.urlsafe_b64encode: plus to minus,
slash to underscore. -/
def urlsafeOfStd (b : Nat) : Nat := if b = 43 then 45 else if b = 47 then 95 else b

/-- Inverse translation applied by base64.urlsafe_b64decode before
decoding: minus to plus, underscore to slash. -/
def stdOfUrlsafe (b : Nat) : Nat := if b = 45 then 43 else if b = 95 then 47 else b

/-- Inverse base64 alphabet on bytes; none for bytes outside the
alphabet (the pad byte 61 is handled separately by the decoder). -/
def b64table (b : Nat) : Option Nat :=
  if 65 ≤ b ∧ b ≤ 90 then some (b - 65)
  else if 97 ≤ b ∧ b ≤ 122 then some (b - 97 + 26)
  else if 48 ≤ b ∧ b ≤ 57 then some (b - 48 + 52)
  else if b = 43 then some 62
  else if b = 47 then some 63
  else none

/-- Model of binascii.a2b_base64 in non-strict mode: bytes outside the
alphabet are discarded, a quad position is tracked, and padding that
completes a quad ends the decode, ignoring the remaining input. -/
def a2bAux : List Nat → Nat → Nat → Nat → Except Unit (List Nat)
  | [], 0, _, _ => .ok []
  | [], _ + 1, _, _ => .error ()
  | c :: rest, quad, leftchar, pads =>
    if c = 61 then
      if 2 ≤ quad ∧ 4 ≤ quad + (pads + 1) then .ok []
      else a2bAux rest quad leftchar (if 2 ≤ quad then pads + 1 else pads)
    else
      match b64table c with
      | none => a2bAux rest quad leftchar pads
      | some d =>
        match quad with
        | 0 => a2bAux rest 1 d 0
        | 1 => (a2bAux rest 2 (d % 16) 0).map (fun out => (leftchar * 4 + d / 16) :: out)
        | 2 => (a2bAux rest 3 (d % 4) 0).map (fun out => (leftchar * 16 + d / 4) :: out)
        | _ => (a2bAux rest 0 0 0).map (fun out => (leftchar * 64 + d) :: out)

/-- Model of binascii.a2b_base64 (non-strict), the decoder reached by
base64.b64decode with default arguments. -/
def a2b_base64 (bs : List Nat) : Except Unit (List Nat) := a2bAux bs 0 0 0

/-- Model of base64.urlsafe_b64decode on bytes. -/
def urlsafe_b64decode (bs : List Nat) : Except Unit (List Nat) :=
  a2b_base64 (bs.map stdOfUrlsafe)

/-- Model of base64.urlsafe_b64encode on bytes. -/
def urlsafe_b64encode (bs : List Nat) : List Nat :=
  (b64encodeBytes bs).map urlsafeOfStd

/-! ## Python whitespace and str.strip -/

/-- Code points for which the Python str.isspace predicate holds; this
is the character set removed by str.strip with no argument. -/
def pyIsSpace (c : Nat) : Bool :=
  (9 ≤ c ∧ c ≤ 13) || (28 ≤ c ∧ c ≤ 31) || c = 32 || c = 0x85 || c = 0xA0 ||
  c = 0x1680 || (0x2000 ≤ c ∧ c ≤ 0x200A) || c = 0x2028 || c = 0x2029 ||
  c = 0x202F || c = 0x205F || c = 0x3000

/-- Model of str.strip with no argument. -/
def pyStrip (s : PyStr) : PyStr :=
  (((s.dropWhile pyIsSpace).reverse).dropWhile pyIsSpace).reverse

/-! ## JSON values -/

/-- Model of the values produced by the Python json module.  Since no
claim evaluates floating-point arithmetic, a float is represented by its
numeric lexeme as matched by the scanner. -/
inductive JValue : Type where
  | jnull : JValue
  | jbool : Bool → JValue
  | jint : Int → JValue
  | jfloat : PyStr → JValue
  | jstr : PyStr → JValue
  | jarr : List JValue → JValue
  | jobj : List (PyStr × JValue) → JValue

/-- Model of the Python is-None test on a field value. -/
def isNone : JValue → Bool
  | .jnull => true
  | _ => false

/-! ## json.dumps with sort_keys=True and default separators -/

/-- Decimal digits of a natural number, least significant first.  The
first argument is recursion fuel; any fuel above the number suffices. -/
def natDigitsAux : Nat → Nat → List Nat
  | 0, n => [48 + n]
  | fuel + 1, n => if n < 10 then [48 + n] else (48 + n % 10) :: natDigitsAux fuel (n / 10)

/-- Decimal representation of a natural number. -/
def pyNatRepr (n : Nat) : PyStr := (natDigitsAux n n).reverse

/-- Model of the Python repr of an int. -/
def pyIntRepr (i : Int) : PyStr :=
  if i < 0 then 45 :: pyNatRepr i.natAbs else pyNatRepr i.toNat

/-- Lowercase hex digit for a value below 16. -/
def hexDigitLow (n : Nat) : Nat := if n < 10 then 48 + n else 87 + n

/-- Four lowercase hex digits of a value below 0x10000. -/
def hex4Low (n : Nat) : PyStr :=
  [hexDigitLow (n / 4096 % 16), hexDigitLow (n / 256 % 16),
   hexDigitLow (n / 16 % 16), hexDigitLow (n % 16)]

/-- Escape of one code point inside a JSON string, following json.dumps
with ensure_ascii=True: named escapes, backslash-u for other control and
non-ASCII code points, and surrogate pairs above 0xFFFF. -/
def jsonEscapeCp (c : Nat) : PyStr :=
  if c = 34 then [92, 34]
  else if c = 92 then [92, 92]
  else if c = 8 then [92, 98]
  else if c = 9 then [92, 116]
  else if c = 10 then [92, 110]
  else if c = 12 then [92, 102]
  else if c = 13 then [92, 114]
  else if c < 0x20 then 92 :: 117 :: hex4Low c
  else if c < 0x7F then [c]
  else if c < 0x10000 then 92 :: 117 :: hex4Low c
  else (92 :: 117 :: hex4Low (0xD800 + (c - 0x10000) / 1024)) ++
       (92 :: 117 :: hex4Low (0xDC00 + (c - 0x10000) % 1024))

/-- Serialization of a JSON string with surrounding quotes. -/
def jsonEscapeStr (s : PyStr) : PyStr := 34 :: (s.map jsonEscapeCp).flatten ++ [34]

/-- Strict lexicographic comparison of Python strings, as used by
sorted on dict keys. -/
def pyLt : PyStr → PyStr → Bool
  | _, [] => false
  | [], _ :: _ => true
  | a :: as, b :: bs => if a < b then true else if a = b then pyLt as bs else false

/-- Insertion into a key-sorted member list. -/
def insertSortedKV (kv : PyStr × JValue) : List (PyStr × JValue) → List (PyStr × JValue)
  | [] => [kv]
  | kv' :: rest => if pyLt kv.1 kv'.1 then kv :: kv' :: rest else kv' :: insertSortedKV kv rest

/-- Key sort performed by json.dumps with sort_keys=True. -/
def sortKvs : List (PyStr × JValue) → List (PyStr × JValue)
  | [] => []
  | kv :: rest => insertSortedKV kv (sortKvs rest)

mutual

/-- Structural size of a JSON value, used as recursion fuel for the
serializer. -/
def jsize : JValue → Nat
  | .jnull => 1
  | .jbool _ => 1
  | .jint _ => 1
  | .jfloat _ => 1
  | .jstr _ => 1
  | .jarr xs => 1 + jsizeList xs
  | .jobj kvs => 1 + jsizeKvs kvs

/-- Size of an element list. -/
def jsizeList : List JValue → Nat
  | [] => 0
  | v :: rest => jsize v + jsizeList rest

/-- Size of a member list. -/
def jsizeKvs : List (PyStr × JValue) → Nat
  | [] => 0
  | kv :: rest => jsize kv.2 + jsizeKvs rest

end

/-- Serializer body of json.dumps with sort_keys=True and the default
separators, which place a space after each comma and after each colon.
The fuel argument only bounds recursion depth; dumpsVal supplies the
structural size of the value, which always suffices. -/
def dumpsAux : Nat → JValue → PyStr
  | 0, _ => []
  | fuel + 1, v =>
    match v with
    | .jnull => [110, 117, 108, 108]
    | .jbool true => [116, 114, 117, 101]
    | .jbool false => [102, 97, 108, 115, 101]
    | .jint i => pyIntRepr i
    | .jfloat lx => lx
    | .jstr s => jsonEscapeStr s
    | .jarr xs =>
      91 :: List.intercalate [44, 32] (xs.map (dumpsAux fuel)) ++ [93]
    | .jobj kvs =>
      123 :: List.intercalate [44, 32]
        ((sortKvs kvs).map fun kv => jsonEscapeStr kv.1 ++ (58 :: 32 :: dumpsAux fuel kv.2)) ++ [125]

/-- Model of json.dumps with sort_keys=True and default separators. -/
def dumpsVal (v : JValue) : PyStr := dumpsAux (jsize v) v

/-! ## json.loads -/

/-- JSON whitespace characters. -/
def jsonWs (c : Nat) : Bool := c = 32 || c = 9 || c = 10 || c = 13

/-- Skip of JSON whitespace. -/
def skipWs (s : PyStr) : PyStr := s.dropWhile jsonWs

/-- Value of a hex digit, case-insensitive. -/
def hexVal (c : Nat) : Option Nat :=
  if 48 ≤ c ∧ c ≤ 57 then some (c - 48)
  else if 97 ≤ c ∧ c ≤ 102 then some (c - 97 + 10)
  else if 65 ≤ c ∧ c ≤ 70 then some (c - 65 + 10)
  else none

/-- Four hex digits of a backslash-u escape, case-insensitive. -/
def lexU16 (s : PyStr) : Except Unit (Nat × PyStr) :=
  match s with
  | h1 :: h2 :: h3 :: h4 :: rest =>
    match hexVal h1, hexVal h2, hexVal h3, hexVal h4 with
    | some a, some b, some c, some d => .ok (((a * 16 + b) * 16 + c) * 16 + d, rest)
    | _, _, _, _ => .error ()
  | _ => .error ()

/-- Handling of a backslash-u escape (after the two escape characters):
a high surrogate immediately followed by a backslash-u low surrogate is
combined; otherwise the (possibly lone surrogate) value stands alone,
and invalid hex digits fail. -/
def lexUEscape (rest2 : PyStr) : Except Unit (Nat × PyStr) :=
  match lexU16 rest2 with
  | .error _ => .error ()
  | .ok (u, rest3) =>
    if 0xD800 ≤ u ∧ u ≤ 0xDBFF then
      if rest3.head? = some 92 ∧ rest3.tail.head? = some 117 then
        match lexU16 rest3.tail.tail with
        | .error _ => .error ()
        | .ok (u2, rest5) =>
          if 0xDC00 ≤ u2 ∧ u2 ≤ 0xDFFF then
            .ok (0x10000 + (u - 0xD800) * 1024 + (u2 - 0xDC00), rest5)
          else .ok (u, rest3)
      else .ok (u, rest3)
    else .ok (u, rest3)

/-- One scanner step of the json string scanner: none means the closing
quote was reached; otherwise the produced code point and the remaining
input. -/
def lexStrStep (c : Nat) (rest : PyStr) : Except Unit (Option (Nat × PyStr)) :=
  if c = 34 then .ok none
  else if c = 92 then
    match rest with
    | [] => .error ()
    | e :: rest2 =>
      if e = 34 then .ok (some (34, rest2))
      else if e = 92 then .ok (some (92, rest2))
      else if e = 47 then .ok (some (47, rest2))
      else if e = 98 then .ok (some (8, rest2))
      else if e = 102 then .ok (some (12, rest2))
      else if e = 110 then .ok (some (10, rest2))
      else if e = 114 then .ok (some (13, rest2))
      else if e = 116 then .ok (some (9, rest2))
      else if e = 117 then (lexUEscape rest2).map (fun p => some p)
      else .error ()
  else if c < 32 then .error ()
  else .ok (some (c, rest))

/-- Scanner loop over string characters.  The fuel argument only bounds
the number of steps; every step consumes at least one input character,
so any fuel above the input length suffices and lexString supplies
it. -/
def lexStrAux : Nat → PyStr → Except Unit (PyStr × PyStr)
  | 0, _ => .error ()
  | _ + 1, [] => .error ()
  | fuel + 1, c :: rest =>
    match lexStrStep c rest with
    | .error _ => .error ()
    | .ok none => .ok ([], rest)
    | .ok (some (u, rest2)) => (lexStrAux fuel rest2).map (fun p => (u :: p.1, p.2))

/-- Model of the json string scanner after the opening quote. -/
def lexString (s : PyStr) : Except Unit (PyStr × PyStr) := lexStrAux (s.length + 1) s

/-- Decimal digit test on code points. -/
def isDigitCp (c : Nat) : Bool := 48 ≤ c ∧ c ≤ 57

/-- Integer part of a JSON number after the optional sign: a single
zero, or a nonzero digit followed by any digits. -/
def lexIntPart : PyStr → Except Unit (List Nat × PyStr)
  | [] => .error ()
  | c :: rest =>
    if c = 48 then .ok ([48], rest)
    else if 49 ≤ c ∧ c ≤ 57 then
      .ok (c :: rest.takeWhile isDigitCp, rest.dropWhile isDigitCp)
    else .error ()

/-- Fraction part of a JSON number: consumed only when a dot is
immediately followed by a digit. -/
def lexFrac : PyStr → List Nat × PyStr
  | [] => ([], [])
  | c :: rest =>
    if c = 46 then
      if (rest.takeWhile isDigitCp) = [] then ([], c :: rest)
      else (46 :: rest.takeWhile isDigitCp, rest.dropWhile isDigitCp)
    else ([], c :: rest)

/-- Exponent part of a JSON number: consumed only when the exponent
letter and optional sign are followed by a digit. -/
def lexExp : PyStr → List Nat × PyStr
  | [] => ([], [])
  | [c] => ([], [c])
  | c :: d :: rest =>
    if c = 101 ∨ c = 69 then
      if d = 43 ∨ d = 45 then
        if (rest.takeWhile isDigitCp) = [] then ([], c :: d :: rest)
        else (c :: d :: rest.takeWhile isDigitCp, rest.dropWhile isDigitCp)
      else
        if ((d :: rest).takeWhile isDigitCp) = [] then ([], c :: d :: rest)
        else (c :: (d :: rest).takeWhile isDigitCp, (d :: rest).dropWhile isDigitCp)
    else ([], c :: d :: rest)

/-- Numeric value of a digit run. -/
def digitsToNat (ds : List Nat) : Nat := ds.foldl (fun a d => a * 10 + (d - 48)) 0

/-- Model of the json scanner for a number at the current position:
maximal match of the JSON number grammar; an int when no fraction and
no exponent were consumed, otherwise a float. -/
def lexNumber (s : PyStr) : Except Unit (JValue × PyStr) :=
  let neg : Bool := s.head? == some 45
  let s1 : PyStr := if neg then s.tail else s
  match lexIntPart s1 with
  | .error _ => .error ()
  | .ok (ip, r1) =>
    let fr := lexFrac r1
    let ex := lexExp fr.2
    if fr.1 = [] ∧ ex.1 = [] then
      let n : Int := Int.ofNat (digitsToNat ip)
      .ok (.jint (if neg then -n else n), ex.2)
    else
      .ok (.jfloat ((if neg then [45] else []) ++ ip ++ fr.1 ++ ex.1), ex.2)

/-- Dict item assignment: replaces the value of an existing key in
place, otherwise appends the pair. -/
def insertKV : List (PyStr × JValue) → PyStr → JValue → List (PyStr × JValue)
  | [], k, v => [(k, v)]
  | (k', v') :: rest, k, v =>
    if k' = k then (k', v) :: rest else (k', v') :: insertKV rest k v

mutual

/-- Model of the json scanner for a value at the current position (the
caller has skipped whitespace).  The fuel argument only bounds recursion
depth; loads supplies enough for any input. -/
def parseValue : Nat → PyStr → Except Unit (JValue × PyStr)
  | 0, _ => .error ()
  | fuel + 1, s =>
    match s with
    | [] => .error ()
    | c :: rest =>
      if c = 34 then (lexString rest).map (fun p => (.jstr p.1, p.2))
      else if c = 123 then parseObj fuel (skipWs rest)
      else if c = 91 then parseArr fuel (skipWs rest)
      else if c = 116 then
        match rest with
        | 114 :: 117 :: 101 :: r => .ok (.jbool true, r)
        | _ => .error ()
      else if c = 102 then
        match rest with
        | 97 :: 108 :: 115 :: 101 :: r => .ok (.jbool false, r)
        | _ => .error ()
      else if c = 110 then
        match rest with
        | 117 :: 108 :: 108 :: r => .ok (.jnull, r)
        | _ => .error ()
      else if c = 78 then
        match rest with
        | 97 :: 78 :: r => .ok (.jfloat [78, 97, 78], r)
        | _ => .error ()
      else if c = 73 then
        match rest with
        | 110 :: 102 :: 105 :: 110 :: 105 :: 116 :: 121 :: r =>
          .ok (.jfloat [73, 110, 102, 105, 110, 105, 116, 121], r)
        | _ => .error ()
      else if c = 45 ∧ rest.head? = some 73 then
        match rest with
        | 73 :: 110 :: 102 :: 105 :: 110 :: 105 :: 116 :: 121 :: r =>
          .ok (.jfloat [45, 73, 110, 102, 105, 110, 105, 116, 121], r)
        | _ => .error ()
      else lexNumber (c :: rest)

/-- Object members after the opening brace and whitespace. -/
def parseObj : Nat → PyStr → Except Unit (JValue × PyStr)
  | 0, _ => .error ()
  | fuel + 1, s =>
    match s with
    | 125 :: rest => .ok (.jobj [], rest)
    | 34 :: rest =>
      match lexString rest with
      | .error _ => .error ()
      | .ok (k, r1) =>
        match skipWs r1 with
        | 58 :: r2 =>
          match parseValue fuel (skipWs r2) with
          | .error _ => .error ()
          | .ok (v, r3) => parseMembers fuel (skipWs r3) [(k, v)]
        | _ => .error ()
    | _ => .error ()

/-- Further object members, starting at a comma or the closing brace. -/
def parseMembers : Nat → PyStr → List (PyStr × JValue) → Except Unit (JValue × PyStr)
  | 0, _, _ => .error ()
  | fuel + 1, s, acc =>
    match s with
    | 125 :: rest => .ok (.jobj acc, rest)
    | 44 :: rest =>
      match skipWs rest with
      | 34 :: r1 =>
        match lexString r1 with
        | .error _ => .error ()
        | .ok (k, r2) =>
          match skipWs r2 with
          | 58 :: r3 =>
            match parseValue fuel (skipWs r3) with
            | .error _ => .error ()
            | .ok (v, r4) => parseMembers fuel (skipWs r4) (insertKV acc k v)
          | _ => .error ()
      | _ => .error ()
    | _ => .error ()

/-- Array elements after the opening bracket and whitespace. -/
def parseArr : Nat → PyStr → Except Unit (JValue × PyStr)
  | 0, _ => .error ()
  | fuel + 1, s =>
    match s with
    | 93 :: rest => .ok (.jarr [], rest)
    | _ =>
      match parseValue fuel s with
      | .error _ => .error ()
      | .ok (v, r1) => parseElems fuel (skipWs r1) [v]

/-- Further array elements, starting at a comma or the closing bracket. -/
def parseElems : Nat → PyStr → List JValue → Except Unit (JValue × PyStr)
  | 0, _, _ => .error ()
  | fuel + 1, s, acc =>
    match s with
    | 93 :: rest => .ok (.jarr acc.reverse, rest)
    | 44 :: rest =>
      match parseValue fuel (skipWs rest) with
      | .error _ => .error ()
      | .ok (v, r1) => parseElems fuel (skipWs r1) (v :: acc)
    | _ => .error ()

end

/-- Model of json.loads: whitespace, one value, trailing whitespace,
nothing else. -/
def loads (s : PyStr) : Except Unit JValue :=
  let t := skipWs s
  match parseValue (t.length + 1) t with
  | .error _ => .error ()
  | .ok (v, rest) => if skipWs rest = [] then .ok v else .error ()

/-! ## Cursor dataclasses -/

/-- Code points of the field name offset. -/
def keyOffset : PyStr := pyOfString "offset"

/-- Code points of the field name database. -/
def keyDatabase : PyStr := pyOfString "database"

/-- Code points of the field name query_hash. -/
def keyQueryHash : PyStr := pyOfString "query_hash"

/-- Model of the TableListCursor dataclass.  Python performs no runtime
type check on the fields, so a decoded instance can hold any JSON
value. -/
structure TableListCursor where
  offset : JValue
  database : JValue

/-- Model of the QueryResultCursor dataclass. -/
structure QueryResultCursor where
  offset : JValue
  query_hash : JValue

/-- Well-formed TableListCursor from an int offset and a str database. -/
def TableListCursor.make (offset : Int) (database : String) : TableListCursor :=
  ⟨.jint offset, .jstr (pyOfString database)⟩

/-- Well-formed QueryResultCursor from an int offset and a str hash. -/
def QueryResultCursor.make (offset : Int) (query_hash : String) : QueryResultCursor :=
  ⟨.jint offset, .jstr (pyOfString query_hash)⟩

/-- Model of BaseCursorData.encode applied to a field dict: drop None
values, json.dumps with sort_keys=True, utf-8 encode, url-safe base64,
ascii decode. -/
def encodeFields (kvs : List (PyStr × JValue)) : String :=
  strOfPy (urlsafe_b64encode (utf8Encode
    (dumpsVal (.jobj (kvs.filter (fun kv => !(isNone kv.2)))))))

/-- Model of TableListCursor.encode (the dict holds offset and
database, in declaration order). -/
def TableListCursor.encode (c : TableListCursor) : String :=
  encodeFields [(keyOffset, c.offset), (keyDatabase, c.database)]

/-- Model of QueryResultCursor.encode. -/
def QueryResultCursor.encode (c : QueryResultCursor) : String :=
  encodeFields [(keyOffset, c.offset), (keyQueryHash, c.query_hash)]

/-- Lookup in a member list. -/
def lookupKV : List (PyStr × JValue) → PyStr → Option JValue
  | [], _ => none
  | (k', v') :: rest, k => if k' = k then some v' else lookupKV rest k

/-- Model of cls(**data) against a cursor dataclass with required field
offset and one discriminator field carrying default value the empty
string: data must be an object, every key must be a known field name,
offset must be present; the discriminator defaults when absent and no
value type is checked. -/
def kwargsApply (v : JValue) (disc : PyStr) : Except Unit (JValue × JValue) :=
  match v with
  | .jobj kvs =>
    if kvs.all (fun kv => kv.1 == keyOffset || kv.1 == disc) then
      match lookupKV kvs keyOffset with
      | some ov => .ok (ov, (lookupKV kvs disc).getD (.jstr []))
      | none => .error ()
    else .error ()
  | _ => .error ()

/-- Model of TableListCursor.decode: utf-8 encode the token, lenient
url-safe base64 decode, strict utf-8 decode, json.loads, keyword
application to the dataclass constructor. -/
def TableListCursor.decode (token : String) : Except Unit TableListCursor := do
  let bytes ← urlsafe_b64decode (utf8Encode (pyOfString token))
  let cps ← utf8Decode bytes
  let v ← loads cps
  let fields ← kwargsApply v keyDatabase
  .ok ⟨fields.1, fields.2⟩

/-- Model of QueryResultCursor.decode. -/
def QueryResultCursor.decode (token : String) : Except Unit QueryResultCursor := do
  let bytes ← urlsafe_b64decode (utf8Encode (pyOfString token))
  let cps ← utf8Decode bytes
  let v ← loads cps
  let fields ← kwargsApply v keyQueryHash
  .ok ⟨fields.1, fields.2⟩

/-- Python equality test between a stored field value and a str. -/
def jvalBeqStr (v : JValue) (s : String) : Bool :=
  match v with
  | .jstr t => t == pyOfString s
  | _ => false

/-- Model of TableListCursor.validate_params: raises unless the stored
database equals the expected one. -/
def TableListCursor.validate_params (c : TableListCursor) (database : String) :
    Except Unit Unit :=
  if jvalBeqStr c.database database then .ok () else .error ()

/-! ## SHA-256 and hash_query -/

/-- Modulus of 32-bit words. -/
def w32 : Nat := 4294967296

/-- Right rotation of a 32-bit word. -/
def rotr32 (x k : Nat) : Nat := (x / 2 ^ k + x % 2 ^ k * 2 ^ (32 - k)) % w32

/-- Choice function of the SHA-256 compression. -/
def shaCh (x y z : Nat) : Nat := (x &&& y) ^^^ ((x ^^^ 4294967295) &&& z)

/-- Majority function of the SHA-256 compression. -/
def shaMaj (x y z : Nat) : Nat := (x &&& y) ^^^ (x &&& z) ^^^ (y &&& z)

/-- Big sigma-0 of SHA-256. -/
def bigSigma0 (x : Nat) : Nat := rotr32 x 2 ^^^ rotr32 x 13 ^^^ rotr32 x 22

/-- Big sigma-1 of SHA-256. -/
def bigSigma1 (x : Nat) : Nat := rotr32 x 6 ^^^ rotr32 x 11 ^^^ rotr32 x 25

/-- Small sigma-0 of SHA-256. -/
def smallSigma0 (x : Nat) : Nat := rotr32 x 7 ^^^ rotr32 x 18 ^^^ x / 2 ^ 3

/-- Small sigma-1 of SHA-256. -/
def smallSigma1 (x : Nat) : Nat := rotr32 x 17 ^^^ rotr32 x 19 ^^^ x / 2 ^ 10

/-- The 64 SHA-256 round constants. -/
def shaK : List Nat :=
  [1116352408, 1899447441, 3049323471, 3921009573, 961987163, 1508970993,
   2453635748, 2870763221, 3624381080, 310598401, 607225278, 1426881987,
   1925078388, 2162078206, 2614888103, 3248222580, 3835390401, 4022224774,
   264347078, 604807628, 770255983, 1249150122, 1555081692, 1996064986,
   2554220882, 2821834349, 2952996808, 3210313671, 3336571891, 3584528711,
   113926993, 338241895, 666307205, 773529912, 1294757372, 1396182291,
   1695183700, 1986661051, 2177026350, 2456956037, 2730485921, 2820302411,
   3259730800, 3345764771, 3516065817, 3600352804, 4094571909, 275423344,
   430227734, 506948616, 659060556, 883997877, 958139571, 1322822218,
   1537002063, 1747873779, 1955562222, 2024104815, 2227730452, 2361852424,
   2428436474, 2756734187, 3204031479, 3329325298]

/-- State of the SHA-256 compression. -/
structure SHAState where
  sa : Nat
  sb : Nat
  sc : Nat
  sd : Nat
  se : Nat
  sf : Nat
  sg : Nat
  sh : Nat

/-- Initial SHA-256 hash value. -/
def shaInit : SHAState :=
  ⟨1779033703, 3144134277, 1013904242, 2773480762, 1359893119, 2600822924, 528734635, 1541459225⟩

/-- One round of the SHA-256 compression. -/
def shaRound (st : SHAState) (k w : Nat) : SHAState :=
  let t1 := (st.sh + bigSigma1 st.se + shaCh st.se st.sf st.sg + k + w) % w32
  let t2 := (bigSigma0 st.sa + shaMaj st.sa st.sb st.sc) % w32
  ⟨(t1 + t2) % w32, st.sa, st.sb, st.sc, (st.sd + t1) % w32, st.se, st.sf, st.sg⟩

/-- Message-schedule extension: prepends the next word to the reversed
word list, n times. -/
def shaExtendAux : Nat → List Nat → List Nat
  | 0, acc => acc
  | n + 1, acc =>
    let w2 := acc.getD 1 0
    let w7 := acc.getD 6 0
    let w15 := acc.getD 14 0
    let w16 := acc.getD 15 0
    shaExtendAux n (((smallSigma1 w2 + w7 + smallSigma0 w15 + w16) % w32) :: acc)

/-- The 64-entry message schedule of a 16-word block. -/
def shaSchedule (block : List Nat) : List Nat := (shaExtendAux 48 block.reverse).reverse

/-- Compression of one 16-word block into the running hash value. -/
def shaBlock (h : SHAState) (block : List Nat) : SHAState :=
  let st := (shaK.zip (shaSchedule block)).foldl (fun st kw => shaRound st kw.1 kw.2) h
  ⟨(h.sa + st.sa) % w32, (h.sb + st.sb) % w32, (h.sc + st.sc) % w32, (h.sd + st.sd) % w32,
   (h.se + st.se) % w32, (h.sf + st.sf) % w32, (h.sg + st.sg) % w32, (h.sh + st.sh) % w32⟩

/-- Fold of the compression over all 16-word blocks; the fuel is the
word-list length, which bounds the number of blocks. -/
def shaBlocksAux : Nat → SHAState → List Nat → SHAState
  | 0, st, _ => st
  | fuel + 1, st, ws =>
    match ws with
    | [] => st
    | _ => shaBlocksAux fuel (shaBlock st (ws.take 16)) (ws.drop 16)

/-- Big-endian 32-bit words of a byte list (the length is always a
multiple of four after padding). -/
def bytesToWords : List Nat → List Nat
  | b1 :: b2 :: b3 :: b4 :: rest =>
    (((b1 * 256 + b2) * 256 + b3) * 256 + b4) :: bytesToWords rest
  | _ => []

/-- SHA-256 padding: a 0x80 byte, zeros to 56 mod 64, and the bit
length as eight big-endian bytes. -/
def shaPad (msg : List Nat) : List Nat :=
  let padZeros := (119 - msg.length % 64) % 64
  msg ++ 128 :: List.replicate padZeros 0 ++
    (List.range 8).map (fun i => 8 * msg.length / 2 ^ (8 * (7 - i)) % 256)

/-- Eight lowercase hex digits of a 32-bit word. -/
def word8hex (x : Nat) : PyStr :=
  [hexDigitLow (x / 16 ^ 7 % 16), hexDigitLow (x / 16 ^ 6 % 16), hexDigitLow (x / 16 ^ 5 % 16),
   hexDigitLow (x / 16 ^ 4 % 16), hexDigitLow (x / 16 ^ 3 % 16), hexDigitLow (x / 16 ^ 2 % 16),
   hexDigitLow (x / 16 % 16), hexDigitLow (x % 16)]

/-- Model of hashlib.sha256(bytes).hexdigest() as code points. -/
def sha256hex (msg : List Nat) : PyStr :=
  let ws := bytesToWords (shaPad msg)
  let st := shaBlocksAux (ws.length + 1) shaInit ws
  word8hex st.sa ++ word8hex st.sb ++ word8hex st.sc ++ word8hex st.sd ++
  word8hex st.se ++ word8hex st.sf ++ word8hex st.sg ++ word8hex st.sh

/-- Model of hash_query: SHA-256 hex digest of the whitespace-stripped
query text encoded as UTF-8. -/
def hash_query (query : String) : String :=
  strOfPy (sha256hex (utf8Encode (pyStrip (pyOfString query))))

/-- Model of QueryResultCursor.validate_query: raises unless the stored
hash equals the hash of the expected query. -/
def QueryResultCursor.validate_query (c : QueryResultCursor) (query : String) :
    Except Unit Unit :=
  if jvalBeqStr c.query_hash (hash_query query) then .ok () else .error ()

/-! ## Pagination query rewriter (modelled from the spec) -/

/-- Identifier start characters of the SQL lexer. -/
def isIdentStart (c : Nat) : Bool := (65 ≤ c ∧ c ≤ 90) || (97 ≤ c ∧ c ≤ 122) || c = 95

/-- Identifier continuation characters of the SQL lexer. -/
def isIdentCont (c : Nat) : Bool := isIdentStart c || isDigitCp c

/-- Modelled from the spec: token kinds of the lexical SQL tokenizer of
section 4.3 (the rewriter itself lives in mcp_hydrolix.mcp_server,
which is not under src; only its tests are). -/
inductive SqlTok : Type where
  | word : PyStr → SqlTok
  | quoted : PyStr → SqlTok
  | lit : PyStr → SqlTok
  | comment : PyStr → SqlTok
  | num : PyStr → SqlTok
  | sym : Nat → SqlTok

/-- Modelled from the spec: SQL string-literal body after the opening
quote, with doubled-quote escapes; unterminated literals fail.  The
fuel always exceeds the input length. -/
def lexSqlString : Nat → PyStr → Except Unit (PyStr × PyStr)
  | 0, _ => .error ()
  | _ + 1, [] => .error ()
  | fuel + 1, c :: rest =>
    if c = 39 then
      match rest with
      | 39 :: rest2 => (lexSqlString fuel rest2).map (fun p => (39 :: p.1, p.2))
      | _ => .ok ([], rest)
    else (lexSqlString fuel rest).map (fun p => (c :: p.1, p.2))

/-- Modelled from the spec: block-comment body after the opening
delimiter; unterminated comments fail. -/
def lexBlockComment : Nat → PyStr → Except Unit (PyStr × PyStr)
  | 0, _ => .error ()
  | _ + 1, [] => .error ()
  | fuel + 1, c :: rest =>
    if c = 42 ∧ rest.head? = some 47 then .ok ([], rest.tail)
    else (lexBlockComment fuel rest).map (fun p => (c :: p.1, p.2))

/-- Modelled from the spec: quoted-identifier body up to the closing
delimiter; unterminated quoting fails. -/
def lexQuoted : Nat → Nat → PyStr → Except Unit (PyStr × PyStr)
  | _, 0, _ => .error ()
  | _, _ + 1, [] => .error ()
  | close, fuel + 1, c :: rest =>
    if c = close then .ok ([], rest)
    else (lexQuoted close fuel rest).map (fun p => (c :: p.1, p.2))

/-- Modelled from the spec: the lexical SQL tokenizer.  Whitespace is
skipped; line and block comments, single-quoted string literals,
backtick-, double-quote- and bracket-delimited quoted identifiers,
words and digit runs each form one token; any other character is
punctuation. -/
def tokenizeSqlAux : Nat → PyStr → Except Unit (List SqlTok)
  | 0, _ => .error ()
  | _ + 1, [] => .ok []
  | fuel + 1, c :: rest =>
    if pyIsSpace c then tokenizeSqlAux fuel rest
    else if c = 45 ∧ rest.head? = some 45 then
      (tokenizeSqlAux fuel (rest.tail.dropWhile (fun x => x != 10))).map
        (SqlTok.comment (rest.tail.takeWhile (fun x => x != 10)) :: ·)
    else if c = 47 ∧ rest.head? = some 42 then
      match lexBlockComment (rest.tail.length + 1) rest.tail with
      | .error _ => .error ()
      | .ok (body, r2) => (tokenizeSqlAux fuel r2).map (SqlTok.comment body :: ·)
    else if c = 39 then
      match lexSqlString (rest.length + 1) rest with
      | .error _ => .error ()
      | .ok (body, r2) => (tokenizeSqlAux fuel r2).map (SqlTok.lit body :: ·)
    else if c = 96 then
      match lexQuoted 96 (rest.length + 1) rest with
      | .error _ => .error ()
      | .ok (body, r2) => (tokenizeSqlAux fuel r2).map (SqlTok.quoted body :: ·)
    else if c = 34 then
      match lexQuoted 34 (rest.length + 1) rest with
      | .error _ => .error ()
      | .ok (body, r2) => (tokenizeSqlAux fuel r2).map (SqlTok.quoted body :: ·)
    else if c = 91 then
      match lexQuoted 93 (rest.length + 1) rest with
      | .error _ => .error ()
      | .ok (body, r2) => (tokenizeSqlAux fuel r2).map (SqlTok.quoted body :: ·)
    else if isIdentStart c then
      (tokenizeSqlAux fuel (rest.dropWhile isIdentCont)).map
        (SqlTok.word (c :: rest.takeWhile isIdentCont) :: ·)
    else if isDigitCp c then
      (tokenizeSqlAux fuel (rest.dropWhile isDigitCp)).map
        (SqlTok.num (c :: rest.takeWhile isDigitCp) :: ·)
    else (tokenizeSqlAux fuel rest).map (SqlTok.sym c :: ·)

/-- Modelled from the spec: tokenization entry point. -/
def tokenizeSql (s : PyStr) : Except Unit (List SqlTok) := tokenizeSqlAux (s.length + 1) s

/-- ASCII lowercase conversion of one code point. -/
def toLowerCp (c : Nat) : Nat := if 65 ≤ c ∧ c ≤ 90 then c + 32 else c

/-- Modelled from the spec: a token is a pagination keyword when it is
a word token spelling limit or offset case-insensitively. -/
def isLimitOffsetTok : SqlTok → Bool
  | .word s => (s.map toLowerCp == pyOfString "limit") || (s.map toLowerCp == pyOfString "offset")
  | _ => false

/-- Modelled from the spec: trim the input and strip a single trailing
statement terminator. -/
def prepQuery (query : String) : PyStr :=
  let t := pyStrip (pyOfString query)
  if t.getLast? = some 59 then t.dropLast else t

/-- Text prepended on the wrap path. -/
def wrapHead : PyStr := pyOfString "SELECT * FROM ("

/-- Text appended after the original query on the wrap path. -/
def wrapTail : PyStr := pyOfString ") AS paginated_subquery"

/-- The appended pagination clause with the requested limit and
offset. -/
def paginationClause (limit offset : Nat) : PyStr :=
  pyOfString " LIMIT " ++ pyNatRepr limit ++ pyOfString " OFFSET " ++ pyNatRepr offset

/-- Modelled from the spec: _add_pagination_to_query of
mcp_hydrolix.mcp_server (not under src; only its tests are).  Per spec
section 4.3: prepare the query, tokenize it, fail on tokenization
failure, and otherwise append the clause directly, or wrap the query in
a subquery when a LIMIT or OFFSET keyword token occurs anywhere in the
token stream. -/
def addPaginationToQuery (query : String) (limit offset : Nat) : Except Unit String :=
  let t := prepQuery query
  match tokenizeSql t with
  | .error _ => .error ()
  | .ok toks =>
    if toks.any isLimitOffsetTok then
      .ok (strOfPy (wrapHead ++ t ++ wrapTail ++ paginationClause limit offset))
    else
      .ok (strOfPy (t ++ paginationClause limit offset))

/-! ## Support lemmas: ASCII strings and base64 -/

theorem charToNat_ofNat : ∀ b < 128, (Char.ofNat b).toNat = b := by decide

theorem pyOfString_strOfPy (bs : List Nat) (h : ∀ b ∈ bs, b < 128) :
    pyOfString (strOfPy bs) = bs := by
  unfold pyOfString strOfPy
  show List.map Char.toNat (List.map Char.ofNat bs) = bs
  rw [List.map_map]
  induction bs with
  | nil => rfl
  | cons b t ih =>
    simp only [List.map_cons, Function.comp_apply]
    rw [charToNat_ofNat b (h b (by simp)), ih (fun x hx => h x (by simp [hx]))]

theorem utf8Encode_ascii (bs : List Nat) (h : ∀ b ∈ bs, b < 128) : utf8Encode bs = bs := by
  induction bs with
  | nil => rfl
  | cons b t ih =>
    have hb : b < 128 := h b (by simp)
    show (utf8EncodeCp b ++ (t.map utf8EncodeCp).flatten) = b :: t
    rw [utf8EncodeCp, if_pos (by omega)]
    have := ih (fun x hx => h x (by simp [hx]))
    rw [show (t.map utf8EncodeCp).flatten = utf8Encode t from rfl, this]
    rfl

theorem b64CharStd_props : ∀ n < 64, b64table (b64CharStd n) = some n ∧
    b64CharStd n ≠ 61 ∧ stdOfUrlsafe (urlsafeOfStd (b64CharStd n)) = b64CharStd n ∧
    urlsafeOfStd (b64CharStd n) < 128 := by decide

theorem b64encode_classify : ∀ (bs : List Nat), (∀ b ∈ bs, b < 256) →
    ∀ c ∈ b64encodeBytes bs, c = 61 ∨ ∃ n, n < 64 ∧ c = b64CharStd n
  | [], _, c, hc => by simp [b64encodeBytes] at hc
  | [b1], h, c, hc => by
    have hb1 : b1 < 256 := h b1 (by simp)
    rw [b64encodeBytes] at hc
    simp only [List.mem_cons, List.not_mem_nil, or_false] at hc
    rcases hc with rfl | rfl | rfl | rfl
    · exact Or.inr ⟨b1 / 4, by omega, rfl⟩
    · exact Or.inr ⟨b1 % 4 * 16, by omega, rfl⟩
    · exact Or.inl rfl
    · exact Or.inl rfl
  | [b1, b2], h, c, hc => by
    have hb1 : b1 < 256 := h b1 (by simp)
    have hb2 : b2 < 256 := h b2 (by simp)
    rw [b64encodeBytes] at hc
    simp only [List.mem_cons, List.not_mem_nil, or_false] at hc
    rcases hc with rfl | rfl | rfl | rfl
    · exact Or.inr ⟨b1 / 4, by omega, rfl⟩
    · exact Or.inr ⟨b1 % 4 * 16 + b2 / 16, by omega, rfl⟩
    · exact Or.inr ⟨b2 % 16 * 4, by omega, rfl⟩
    · exact Or.inl rfl
  | b1 :: b2 :: b3 :: rest, h, c, hc => by
    have hb1 : b1 < 256 := h b1 (by simp)
    have hb2 : b2 < 256 := h b2 (by simp)
    have hb3 : b3 < 256 := h b3 (by simp)
    rw [b64encodeBytes] at hc
    simp only [List.mem_cons] at hc
    rcases hc with rfl | rfl | rfl | rfl | hc
    · exact Or.inr ⟨b1 / 4, by omega, rfl⟩
    · exact Or.inr ⟨b1 % 4 * 16 + b2 / 16, by omega, rfl⟩
    · exact Or.inr ⟨b2 % 16 * 4 + b3 / 64, by omega, rfl⟩
    · exact Or.inr ⟨b3 % 64, by omega, rfl⟩
    · exact b64encode_classify rest (fun x hx => h x (by simp [hx])) c hc

theorem urlsafe_b64encode_ascii (bs : List Nat) (h : ∀ b ∈ bs, b < 256) :
    ∀ c ∈ urlsafe_b64encode bs, c < 128 := by
  intro c hc
  rw [urlsafe_b64encode, List.mem_map] at hc
  obtain ⟨x, hx, rfl⟩ := hc
  rcases b64encode_classify bs h x hx with rfl | ⟨n, hn, rfl⟩
  · decide
  · exact (b64CharStd_props n hn).2.2.2

theorem map_stdOfUrlsafe_encode (bs : List Nat) (h : ∀ b ∈ bs, b < 256) :
    (urlsafe_b64encode bs).map stdOfUrlsafe = b64encodeBytes bs := by
  rw [urlsafe_b64encode, List.map_map]
  have : ∀ c ∈ b64encodeBytes bs, (stdOfUrlsafe ∘ urlsafeOfStd) c = id c := by
    intro c hc
    rcases b64encode_classify bs h c hc with rfl | ⟨n, hn, rfl⟩
    · decide
    · exact (b64CharStd_props n hn).2.2.1
  rw [List.map_congr_left this, List.map_id]

theorem a2bAux_encode : ∀ (bs : List Nat), (∀ b ∈ bs, b < 256) →
    a2bAux (b64encodeBytes bs) 0 0 0 = .ok bs
  | [], _ => rfl
  | [b1], h => by
    have hb1 : b1 < 256 := h b1 (by simp)
    have h1 := b64CharStd_props (b1 / 4) (by omega)
    have h2 := b64CharStd_props (b1 % 4 * 16) (by omega)
    rw [b64encodeBytes]
    simp only [a2bAux, if_neg h1.2.1, h1.1, if_neg h2.2.1, h2.1]
    norm_num [Except.map]
    omega
  | [b1, b2], h => by
    have hb1 : b1 < 256 := h b1 (by simp)
    have hb2 : b2 < 256 := h b2 (by simp)
    have h1 := b64CharStd_props (b1 / 4) (by omega)
    have h2 := b64CharStd_props (b1 % 4 * 16 + b2 / 16) (by omega)
    have h3 := b64CharStd_props (b2 % 16 * 4) (by omega)
    rw [b64encodeBytes]
    simp only [a2bAux, if_neg h1.2.1, h1.1, if_neg h2.2.1, h2.1, if_neg h3.2.1, h3.1]
    norm_num [Except.map]
    constructor
    · omega
    · omega
  | b1 :: b2 :: b3 :: rest, h => by
    have hb1 : b1 < 256 := h b1 (by simp)
    have hb2 : b2 < 256 := h b2 (by simp)
    have hb3 : b3 < 256 := h b3 (by simp)
    have h1 := b64CharStd_props (b1 / 4) (by omega)
    have h2 := b64CharStd_props (b1 % 4 * 16 + b2 / 16) (by omega)
    have h3 := b64CharStd_props (b2 % 16 * 4 + b3 / 64) (by omega)
    have h4 := b64CharStd_props (b3 % 64) (by omega)
    have ih := a2bAux_encode rest (fun x hx => h x (by simp [hx]))
    rw [b64encodeBytes]
    simp only [a2bAux, if_neg h1.2.1, h1.1, if_neg h2.2.1, h2.1, if_neg h3.2.1, h3.1,
      if_neg h4.2.1, h4.1, ih]
    norm_num [Except.map]
    refine ⟨by omega, by omega, by omega⟩

theorem urlsafe_b64_roundtrip (bs : List Nat) (h : ∀ b ∈ bs, b < 256) :
    urlsafe_b64decode (utf8Encode (pyOfString (strOfPy (urlsafe_b64encode bs)))) = .ok bs := by
  rw [pyOfString_strOfPy _ (urlsafe_b64encode_ascii bs h),
    utf8Encode_ascii _ (urlsafe_b64encode_ascii bs h),
    urlsafe_b64decode, map_stdOfUrlsafe_encode bs h]
  exact a2bAux_encode bs h

/-! ## Support lemmas: UTF-8 round trip -/

theorem utf8Lead_enc (c : Nat) (hc : c < 0x110000) (hs : ¬(0xD800 ≤ c ∧ c < 0xE000))
    (R : List Nat) :
    ∃ b rest, utf8EncodeCp c ++ R = b :: rest ∧ utf8DecodeLead b rest = .ok (c, R) := by
  rw [utf8EncodeCp]
  by_cases h1 : c < 0x80
  · refine ⟨c, R, by rw [if_pos h1]; rfl, ?_⟩
    unfold utf8DecodeLead
    rw [if_pos h1]
  · by_cases h2 : c < 0x800
    · refine ⟨0xC0 + c / 64, (0x80 + c % 64) :: R,
        by rw [if_neg h1, if_pos h2]; rfl, ?_⟩
      unfold utf8DecodeLead
      rw [if_neg (by omega), if_neg (by omega), if_pos (by omega)]
      simp only []
      rw [if_pos (by omega)]
      have : (0xC0 + c / 64 - 0xC0) * 64 + (0x80 + c % 64 - 0x80) = c := by omega
      rw [this]
    · by_cases h3 : c < 0x10000
      · refine ⟨0xE0 + c / 4096, (0x80 + c / 64 % 64) :: (0x80 + c % 64) :: R,
          by rw [if_neg h1, if_neg h2, if_pos h3]; rfl, ?_⟩
        unfold utf8DecodeLead
        rw [if_neg (by omega), if_neg (by omega), if_neg (by omega), if_pos (by omega)]
        simp only []
        rw [if_pos (by refine ⟨by omega, by omega, by omega, by omega, by omega, by omega⟩)]
        have : (0xE0 + c / 4096 - 0xE0) * 4096 + (0x80 + c / 64 % 64 - 0x80) * 64 +
            (0x80 + c % 64 - 0x80) = c := by omega
        rw [this]
      · refine ⟨0xF0 + c / 262144,
          (0x80 + c / 4096 % 64) :: (0x80 + c / 64 % 64) :: (0x80 + c % 64) :: R,
          by rw [if_neg h1, if_neg h2, if_neg h3]; rfl, ?_⟩
        unfold utf8DecodeLead
        rw [if_neg (by omega), if_neg (by omega), if_neg (by omega), if_neg (by omega),
          if_pos (by omega)]
        simp only []
        rw [if_pos (by refine ⟨by omega, by omega, by omega, by omega, by omega, by omega,
          by omega, by omega⟩)]
        have : (0xF0 + c / 262144 - 0xF0) * 262144 + (0x80 + c / 4096 % 64 - 0x80) * 4096 +
            (0x80 + c / 64 % 64 - 0x80) * 64 + (0x80 + c % 64 - 0x80) = c := by omega
        rw [this]

theorem utf8EncodeCp_len_pos (c : Nat) : 1 ≤ (utf8EncodeCp c).length := by
  rw [utf8EncodeCp]
  split_ifs <;> simp

theorem utf8Encode_len_ge (s : PyStr) : s.length ≤ (utf8Encode s).length := by
  induction s with
  | nil => simp [utf8Encode]
  | cons c t ih =>
    show t.length + 1 ≤ (utf8EncodeCp c ++ (t.map utf8EncodeCp).flatten).length
    rw [List.length_append]
    have h1 := utf8EncodeCp_len_pos c
    have h2 : (utf8Encode t).length = ((t.map utf8EncodeCp).flatten).length := rfl
    omega

theorem utf8DecodeAux_encode (s : PyStr)
    (h : ∀ c ∈ s, c < 0x110000 ∧ ¬(0xD800 ≤ c ∧ c < 0xE000)) :
    ∀ fuel, s.length < fuel → utf8DecodeAux fuel (utf8Encode s) = .ok s := by
  induction s with
  | nil =>
    intro fuel hf
    obtain ⟨f, rfl⟩ : ∃ f, fuel = f + 1 := ⟨fuel - 1, by omega⟩
    rfl
  | cons c t ih =>
    intro fuel hf
    obtain ⟨f, rfl⟩ : ∃ f, fuel = f + 1 := ⟨fuel - 1, by omega⟩
    have hc := h c (by simp)
    obtain ⟨b, rest, heq, hlead⟩ := utf8Lead_enc c hc.1 hc.2 (utf8Encode t)
    have henc : utf8Encode (c :: t) = b :: rest := heq
    rw [henc, utf8DecodeAux, hlead]
    show Except.map (fun x => c :: x) (utf8DecodeAux f (utf8Encode t)) = Except.ok (c :: t)
    rw [ih (fun x hx => h x (by simp [hx])) f (by simp at hf; omega)]
    rfl

theorem utf8_roundtrip (s : PyStr)
    (h : ∀ c ∈ s, c < 0x110000 ∧ ¬(0xD800 ≤ c ∧ c < 0xE000)) :
    utf8Decode (utf8Encode s) = .ok s := by
  have := utf8Encode_len_ge s
  exact utf8DecodeAux_encode s h _ (by omega)

/-! ## Support lemmas: JSON string escapes scan back -/

theorem hexVal_hexDigitLow : ∀ k < 16, hexVal (hexDigitLow k) = some k := by decide

theorem lexStrStep_lit (c : Nat) (rest : PyStr) (h34 : c ≠ 34) (h92 : c ≠ 92)
    (hctl : ¬ c < 32) : lexStrStep c rest = .ok (some (c, rest)) := by
  unfold lexStrStep
  rw [if_neg h34, if_neg h92, if_neg hctl]

theorem lexU16_hex4 (m : Nat) (rest : PyStr) (hm : m < 0x10000) :
    lexU16 (hex4Low m ++ rest) = .ok (m, rest) := by
  rw [hex4Low]
  simp only [List.cons_append, List.nil_append]
  unfold lexU16
  simp only []
  rw [hexVal_hexDigitLow _ (by omega), hexVal_hexDigitLow _ (by omega),
    hexVal_hexDigitLow _ (by omega), hexVal_hexDigitLow _ (by omega)]
  simp only []
  rw [show ((m / 4096 % 16 * 16 + m / 256 % 16) * 16 + m / 16 % 16) * 16 + m % 16 = m from
    by omega]

theorem lexUEscape_u (n : Nat) (rest : PyStr) (hn : n < 0x10000)
    (hs : ¬ (0xD800 ≤ n ∧ n ≤ 0xDBFF)) :
    lexUEscape (hex4Low n ++ rest) = .ok (n, rest) := by
  rw [lexUEscape.eq_def]
  rw [lexU16_hex4 n rest hn]
  simp only []
  rw [if_neg hs]

theorem lexUEscape_pair (n : Nat) (rest : PyStr) (h1 : 0x10000 ≤ n) (h2 : n < 0x110000) :
    lexUEscape (hex4Low (0xD800 + (n - 0x10000) / 1024) ++
        (92 :: (117 :: (hex4Low (0xDC00 + (n - 0x10000) % 1024) ++ rest)))) = .ok (n, rest) := by
  have hcomb : 0x10000 + (0xD800 + (n - 0x10000) / 1024 - 0xD800) * 1024 +
      (0xDC00 + (n - 0x10000) % 1024 - 0xDC00) = n := by omega
  have hhi1 : (0xD800 : Nat) ≤ 0xD800 + (n - 0x10000) / 1024 := by omega
  have hhi2 : 0xD800 + (n - 0x10000) / 1024 ≤ 0xDBFF := by omega
  have hlo1 : (0xDC00 : Nat) ≤ 0xDC00 + (n - 0x10000) % 1024 := by omega
  have hlo2 : 0xDC00 + (n - 0x10000) % 1024 ≤ 0xDFFF := by omega
  generalize hhi : 0xD800 + (n - 0x10000) / 1024 = hi at hcomb hhi1 hhi2 ⊢
  generalize hlo : 0xDC00 + (n - 0x10000) % 1024 = lo at hcomb hlo1 hlo2 ⊢
  rw [lexUEscape.eq_def]
  rw [lexU16_hex4 hi _ (by omega)]
  simp only []
  rw [if_pos (⟨hhi1, hhi2⟩ : (0xD800 : Nat) ≤ hi ∧ hi ≤ 0xDBFF)]
  split
  next hcond =>
    rw [List.tail_cons, List.tail_cons, lexU16_hex4 lo rest (by omega)]
    simp only []
    split
    next => rw [hcomb]
    next hc2 => exact absurd ⟨hlo1, hlo2⟩ hc2
  next hcond => exact absurd ⟨rfl, rfl⟩ hcond

theorem lexStrStep_u (n : Nat) (rest : PyStr) (hn : n < 0x10000)
    (hs : ¬ (0xD800 ≤ n ∧ n ≤ 0xDBFF)) :
    lexStrStep 92 (117 :: (hex4Low n ++ rest)) = .ok (some (n, rest)) := by
  unfold lexStrStep
  norm_num
  rw [lexUEscape_u n rest hn hs]
  rfl

theorem lexStrStep_pair (n : Nat) (rest : PyStr) (h1 : 0x10000 ≤ n) (h2 : n < 0x110000) :
    lexStrStep 92 (117 :: (hex4Low (0xD800 + (n - 0x10000) / 1024) ++
        (92 :: (117 :: (hex4Low (0xDC00 + (n - 0x10000) % 1024) ++ rest))))) =
      .ok (some (n, rest)) := by
  unfold lexStrStep
  norm_num
  rw [lexUEscape_pair n rest h1 h2]
  rfl

theorem jsonEscapeCp_step (c : Nat) (hc1 : c < 0x110000) (hc2 : ¬(0xD800 ≤ c ∧ c < 0xE000))
    (R : PyStr) :
    ∃ e0 er, jsonEscapeCp c ++ R = e0 :: er ∧ lexStrStep e0 er = .ok (some (c, R)) := by
  rw [jsonEscapeCp]
  by_cases h34 : c = 34
  · subst h34
    rw [if_pos rfl]
    exact ⟨92, 34 :: R, rfl, rfl⟩
  rw [if_neg h34]
  by_cases h92 : c = 92
  · subst h92
    rw [if_pos rfl]
    exact ⟨92, 92 :: R, rfl, rfl⟩
  rw [if_neg h92]
  by_cases h8 : c = 8
  · subst h8
    rw [if_pos rfl]
    exact ⟨92, 98 :: R, rfl, rfl⟩
  rw [if_neg h8]
  by_cases h9 : c = 9
  · subst h9
    rw [if_pos rfl]
    exact ⟨92, 116 :: R, rfl, rfl⟩
  rw [if_neg h9]
  by_cases h10 : c = 10
  · subst h10
    rw [if_pos rfl]
    exact ⟨92, 110 :: R, rfl, rfl⟩
  rw [if_neg h10]
  by_cases h12 : c = 12
  · subst h12
    rw [if_pos rfl]
    exact ⟨92, 102 :: R, rfl, rfl⟩
  rw [if_neg h12]
  by_cases h13 : c = 13
  · subst h13
    rw [if_pos rfl]
    exact ⟨92, 114 :: R, rfl, rfl⟩
  rw [if_neg h13]
  by_cases hctl : c < 0x20
  · rw [if_pos hctl]
    exact ⟨92, 117 :: (hex4Low c ++ R), rfl, lexStrStep_u c R (by omega) (by omega)⟩
  rw [if_neg hctl]
  by_cases h7f : c < 0x7F
  · rw [if_pos h7f]
    exact ⟨c, R, rfl, lexStrStep_lit c R h34 h92 (by omega)⟩
  rw [if_neg h7f]
  by_cases hbmp : c < 0x10000
  · rw [if_pos hbmp]
    exact ⟨92, 117 :: (hex4Low c ++ R), rfl, lexStrStep_u c R hbmp (by omega)⟩
  rw [if_neg hbmp]
  refine ⟨92, 117 :: (hex4Low (0xD800 + (c - 0x10000) / 1024) ++
      (92 :: (117 :: (hex4Low (0xDC00 + (c - 0x10000) % 1024) ++ R)))), ?_, ?_⟩
  · simp only [List.cons_append, List.nil_append, List.append_assoc]
  · exact lexStrStep_pair c R (by omega) hc1

theorem jsonEscape_len_ge (s : PyStr)
    (h : ∀ c ∈ s, c < 0x110000 ∧ ¬(0xD800 ≤ c ∧ c < 0xE000)) :
    s.length ≤ ((s.map jsonEscapeCp).flatten).length := by
  induction s with
  | nil => simp
  | cons c t ih =>
    have hc := h c (by simp)
    obtain ⟨e0, er, heq, _⟩ := jsonEscapeCp_step c hc.1 hc.2 []
    have h1 : 1 ≤ (jsonEscapeCp c).length := by
      have := congrArg List.length heq
      simp only [List.length_append, List.length_nil, List.length_cons] at this
      omega
    have h2 := ih (fun x hx => h x (by simp [hx]))
    simp only [List.map_cons, List.flatten_cons, List.length_append, List.length_cons]
    omega

theorem lexStrAux_escape (s : PyStr) :
    ∀ (fuel : Nat) (rest : PyStr), s.length < fuel →
    (∀ c ∈ s, c < 0x110000 ∧ ¬(0xD800 ≤ c ∧ c < 0xE000)) →
    lexStrAux fuel ((s.map jsonEscapeCp).flatten ++ (34 :: rest)) = .ok (s, rest) := by
  induction s with
  | nil =>
    intro fuel rest hf _
    obtain ⟨f, rfl⟩ : ∃ f, fuel = f + 1 := ⟨fuel - 1, by omega⟩
    rfl
  | cons c t ih =>
    intro fuel rest hf hs
    obtain ⟨f, rfl⟩ : ∃ f, fuel = f + 1 := ⟨fuel - 1, by omega⟩
    have hc := hs c (by simp)
    have htail : ∀ x ∈ t, x < 0x110000 ∧ ¬(0xD800 ≤ x ∧ x < 0xE000) :=
      fun x hx => hs x (by simp [hx])
    have hflen : t.length < f := by
      simp only [List.length_cons] at hf
      omega
    obtain ⟨e0, er, heq, hstep⟩ :=
      jsonEscapeCp_step c hc.1 hc.2 ((t.map jsonEscapeCp).flatten ++ (34 :: rest))
    have hgoal : ((c :: t).map jsonEscapeCp).flatten ++ (34 :: rest) = e0 :: er := by
      simp only [List.map_cons, List.flatten_cons, List.append_assoc]
      exact heq
    rw [hgoal, lexStrAux, hstep]
    show (lexStrAux f ((t.map jsonEscapeCp).flatten ++ (34 :: rest))).map
      (fun p => (c :: p.1, p.2)) = _
    rw [ih f rest hflen htail]
    rfl

theorem lexString_escape (s : PyStr) (rest : PyStr)
    (h : ∀ c ∈ s, c < 0x110000 ∧ ¬(0xD800 ≤ c ∧ c < 0xE000)) :
    lexString ((s.map jsonEscapeCp).flatten ++ (34 :: rest)) = .ok (s, rest) := by
  have h1 := jsonEscape_len_ge s h
  refine lexStrAux_escape s _ rest ?_ h
  rw [List.length_append]
  simp only [List.length_cons]
  omega

/-! ## Support lemmas: integer representation scans back -/

theorem natDigitsAux_spec : ∀ (fuel n : Nat), n ≤ fuel →
    (∀ d ∈ natDigitsAux fuel n, 48 ≤ d ∧ d ≤ 57) ∧
    List.foldr (fun d acc => acc * 10 + (d - 48)) 0 (natDigitsAux fuel n) = n := by
  intro fuel
  induction fuel with
  | zero =>
    intro n hn
    have hz : n = 0 := by omega
    subst hz
    exact ⟨by decide, by decide⟩
  | succ f ih =>
    intro n hn
    rw [natDigitsAux]
    by_cases h10 : n < 10
    · rw [if_pos h10]
      refine ⟨?_, ?_⟩
      · intro d hd
        simp only [List.mem_cons, List.not_mem_nil, or_false] at hd
        omega
      · simp only [List.foldr_cons, List.foldr_nil]
        omega
    · rw [if_neg h10]
      have hsub := ih (n / 10) (by omega)
      refine ⟨?_, ?_⟩
      · intro d hd
        simp only [List.mem_cons] at hd
        rcases hd with rfl | hd
        · omega
        · exact hsub.1 d hd
      · simp only [List.foldr_cons, hsub.2]
        omega

theorem natDigitsAux_leading : ∀ (fuel n : Nat), n ≤ fuel → 1 ≤ n →
    ∃ dm rest, natDigitsAux fuel n = rest ++ [dm] ∧ 49 ≤ dm ∧ dm ≤ 57 := by
  intro fuel
  induction fuel with
  | zero => intro n hn h1; omega
  | succ f ih =>
    intro n hn h1
    rw [natDigitsAux]
    by_cases h10 : n < 10
    · rw [if_pos h10]
      exact ⟨48 + n, [], rfl, by omega, by omega⟩
    · rw [if_neg h10]
      obtain ⟨dm, rest, heq, ha, hb⟩ := ih (n / 10) (by omega) (by omega)
      exact ⟨dm, (48 + n % 10) :: rest, by rw [heq]; rfl, ha, hb⟩

theorem pyNatRepr_facts (n : Nat) :
    (∀ d ∈ pyNatRepr n, 48 ≤ d ∧ d ≤ 57) ∧
    digitsToNat (pyNatRepr n) = n ∧
    ∃ d0 ds, pyNatRepr n = d0 :: ds ∧ 48 ≤ d0 ∧ d0 ≤ 57 ∧ (1 ≤ n → 49 ≤ d0) := by
  have hspec := natDigitsAux_spec n n (le_refl n)
  refine ⟨?_, ?_, ?_⟩
  · intro d hd
    rw [pyNatRepr, List.mem_reverse] at hd
    exact hspec.1 d hd
  · rw [pyNatRepr, digitsToNat, List.foldl_reverse]
    exact hspec.2
  · by_cases h1 : 1 ≤ n
    · obtain ⟨dm, rest, heq, ha, hb⟩ := natDigitsAux_leading n n (le_refl n) h1
      refine ⟨dm, rest.reverse, ?_, by omega, by omega, fun _ => ha⟩
      rw [pyNatRepr, heq, List.reverse_append]
      rfl
    · have hz : n = 0 := by omega
      subst hz
      exact ⟨48, [], rfl, by omega, by omega, by omega⟩

theorem takeWhile_append_all (xs ys : List Nat) (p : Nat → Bool) (h : ∀ x ∈ xs, p x) :
    (xs ++ ys).takeWhile p = xs ++ ys.takeWhile p ∧ (xs ++ ys).dropWhile p = ys.dropWhile p := by
  induction xs with
  | nil => simp
  | cons x t ih =>
    have hx : p x := h x (by simp)
    have := ih (fun y hy => h y (by simp [hy]))
    simp only [List.cons_append, List.takeWhile_cons, List.dropWhile_cons, hx, if_true]
    exact ⟨by rw [this.1], by rw [this.2]⟩

theorem head_not_digit_runs (ys : List Nat)
    (h : ∀ d, ys.head? = some d → ¬(48 ≤ d ∧ d ≤ 57)) :
    ys.takeWhile isDigitCp = [] ∧ ys.dropWhile isDigitCp = ys := by
  cases ys with
  | nil => simp
  | cons y t =>
    have hy : isDigitCp y = false := by
      have := h y rfl
      simp only [isDigitCp]
      simp only [decide_eq_false_iff_not]
      omega
    simp [List.takeWhile_cons, List.dropWhile_cons, hy]

theorem lexIntPart_repr (n : Nat) (rest : PyStr)
    (hrest : ∀ d, rest.head? = some d → ¬(48 ≤ d ∧ d ≤ 57)) :
    lexIntPart (pyNatRepr n ++ rest) = .ok (pyNatRepr n, rest) := by
  obtain ⟨hdig, hval, d0, ds, heq, hd0a, hd0b, hd0c⟩ := pyNatRepr_facts n
  by_cases hz : n = 0
  · subst hz
    have h0 : pyNatRepr 0 = [48] := rfl
    rw [h0]
    show lexIntPart (48 :: rest) = _
    rw [lexIntPart, if_pos rfl]
  · have h49 : 49 ≤ d0 := hd0c (by omega)
    rw [heq]
    show lexIntPart (d0 :: (ds ++ rest)) = _
    rw [lexIntPart, if_neg (by omega), if_pos (by omega)]
    have hds : ∀ x ∈ ds, isDigitCp x := by
      intro x hx
      have := hdig x (by rw [heq]; simp [hx])
      simp only [isDigitCp]
      simp only [decide_eq_true_eq]
      omega
    have htw := takeWhile_append_all ds rest isDigitCp hds
    have hr := head_not_digit_runs rest hrest
    rw [htw.1, htw.2, hr.1, hr.2, List.append_nil]

theorem lexFrac_stop (c : Nat) (r : PyStr) (hc : c ≠ 46) : lexFrac (c :: r) = ([], c :: r) := by
  rw [lexFrac, if_neg hc]

theorem lexExp_stop (c : Nat) (r : PyStr) (hc : ¬(c = 101 ∨ c = 69)) :
    lexExp (c :: r) = ([], c :: r) := by
  cases r with
  | nil => rw [lexExp]
  | cons d r2 => rw [lexExp, if_neg hc]

theorem lexNumber_natRepr (n : Nat) (c : Nat) (r : PyStr) (hc : c = 44 ∨ c = 125) :
    lexNumber (pyNatRepr n ++ (c :: r)) = .ok (.jint (Int.ofNat n), c :: r) := by
  obtain ⟨hdig, hval, d0, ds, heq, hd0a, hd0b, _⟩ := pyNatRepr_facts n
  have hrestd : ∀ d, (c :: r).head? = some d → ¬(48 ≤ d ∧ d ≤ 57) := by
    intro d hd
    injection hd with hd
    omega
  have hip := lexIntPart_repr n (c :: r) hrestd
  have hfr : lexFrac (c :: r) = ([], c :: r) := lexFrac_stop c r (by omega)
  have hex : lexExp (c :: r) = ([], c :: r) := lexExp_stop c r (by omega)
  have hhead : (pyNatRepr n ++ (c :: r)).head? = some d0 := by rw [heq]; rfl
  have hne : ((pyNatRepr n ++ (c :: r)).head? == some 45) = false := by
    rw [hhead]
    exact beq_eq_false_iff_ne.mpr (by intro h; injection h with h; omega)
  rw [lexNumber]
  simp only [hne, Bool.false_eq_true, if_false, hip, hfr, hex]
  rw [if_pos (by simp)]
  rw [hval]

theorem lexNumber_intRepr (i : Int) (c : Nat) (r : PyStr) (hc : c = 44 ∨ c = 125) :
    lexNumber (pyIntRepr i ++ (c :: r)) = .ok (.jint i, c :: r) := by
  by_cases hneg : i < 0
  · rw [pyIntRepr, if_pos hneg]
    obtain ⟨hdig, hval, d0, ds, heq, hd0a, hd0b, _⟩ := pyNatRepr_facts i.natAbs
    have hrestd : ∀ d, (c :: r).head? = some d → ¬(48 ≤ d ∧ d ≤ 57) := by
      intro d hd
      injection hd with hd
      omega
    have hip := lexIntPart_repr i.natAbs (c :: r) hrestd
    have hfr : lexFrac (c :: r) = ([], c :: r) := lexFrac_stop c r (by omega)
    have hex : lexExp (c :: r) = ([], c :: r) := lexExp_stop c r (by omega)
    rw [List.cons_append, lexNumber]
    simp only [List.head?_cons, List.tail_cons, beq_self_eq_true, if_true, hip, hfr, hex]
    rw [if_pos (by simp)]
    rw [hval, show -Int.ofNat i.natAbs = i from by rw [Int.ofNat_eq_coe]; omega]
  · rw [pyIntRepr, if_neg hneg, lexNumber_natRepr i.toNat c r hc,
      show Int.ofNat i.toNat = i from by rw [Int.ofNat_eq_coe]; omega]

theorem parseValue_digit (f : Nat) (d : Nat) (rest : PyStr) (h1 : 48 ≤ d) (h2 : d ≤ 57) :
    parseValue (f + 1) (d :: rest) = lexNumber (d :: rest) := by
  interval_cases d <;> rfl

theorem parseValue_neg_digit (f : Nat) (d : Nat) (rest : PyStr) (h1 : 48 ≤ d) (h2 : d ≤ 57) :
    parseValue (f + 1) (45 :: (d :: rest)) = lexNumber (45 :: (d :: rest)) := by
  interval_cases d <;> rfl

theorem parseValue_intRepr (f : Nat) (i : Int) (c : Nat) (r : PyStr) (hc : c = 44 ∨ c = 125) :
    parseValue (f + 1) (pyIntRepr i ++ (c :: r)) = .ok (.jint i, c :: r) := by
  have hlex := lexNumber_intRepr i c r hc
  by_cases hneg : i < 0
  · obtain ⟨hdig, hval, d0, ds, heq, hd0a, hd0b, _⟩ := pyNatRepr_facts i.natAbs
    have hshape : pyIntRepr i = 45 :: pyNatRepr i.natAbs := by rw [pyIntRepr, if_pos hneg]
    rw [hshape] at hlex ⊢
    rw [List.cons_append, heq, List.cons_append]
    rw [heq, List.cons_append] at hlex
    rw [parseValue_neg_digit f d0 (ds ++ c :: r) hd0a hd0b]
    exact hlex
  · obtain ⟨hdig, hval, d0, ds, heq, hd0a, hd0b, _⟩ := pyNatRepr_facts i.toNat
    have hshape : pyIntRepr i = pyNatRepr i.toNat := by rw [pyIntRepr, if_neg hneg]
    rw [hshape] at hlex ⊢
    rw [heq, List.cons_append] at hlex ⊢
    rw [parseValue_digit f d0 (ds ++ c :: r) hd0a hd0b]
    exact hlex

/-! ## Support lemmas: whitespace skipping and object members -/

theorem skipWs_not (c : Nat) (r : PyStr) (h : jsonWs c = false) : skipWs (c :: r) = c :: r := by
  simp [skipWs, List.dropWhile_cons, h]

theorem skipWs_space (r : PyStr) : skipWs (32 :: r) = skipWs r := by
  simp [skipWs, List.dropWhile_cons, jsonWs]

theorem jsonEscapeStr_append (s Y : PyStr) :
    jsonEscapeStr s ++ Y = 34 :: ((s.map jsonEscapeCp).flatten ++ (34 :: Y)) := by
  rw [jsonEscapeStr]
  simp [List.append_assoc]

theorem parseValue_str (f : Nat) (s R : PyStr)
    (hs : ∀ c ∈ s, c < 0x110000 ∧ ¬(0xD800 ≤ c ∧ c < 0xE000)) :
    parseValue (f + 1) (34 :: ((s.map jsonEscapeCp).flatten ++ (34 :: R))) =
      .ok (.jstr s, R) := by
  have h := lexString_escape s R hs
  show (lexString ((s.map jsonEscapeCp).flatten ++ (34 :: R))).map
    (fun p => (JValue.jstr p.1, p.2)) = _
  rw [h]
  rfl

/-! ## Support lemmas: ASCII bounds of serialized JSON -/

theorem pyOfString_scalar (s : String) :
    ∀ c ∈ pyOfString s, c < 0x110000 ∧ ¬(0xD800 ≤ c ∧ c < 0xE000) := by
  intro c hc
  rw [pyOfString, List.mem_map] at hc
  obtain ⟨ch, _, rfl⟩ := hc
  have hv : ch.val.toNat < 0xd800 ∨ (0xdfff < ch.val.toNat ∧ ch.val.toNat < 0x110000) :=
    ch.valid
  show ch.val.toNat < 0x110000 ∧ ¬(0xD800 ≤ ch.val.toNat ∧ ch.val.toNat < 0xE000)
  omega

theorem hex4Low_ascii (m : Nat) : ∀ x ∈ hex4Low m, x < 128 := by
  intro x hx
  have hd : ∀ k, k < 16 → hexDigitLow k < 128 := by
    intro k hk
    rw [hexDigitLow]
    split_ifs <;> omega
  rw [hex4Low] at hx
  simp only [List.mem_cons, List.not_mem_nil, or_false] at hx
  rcases hx with rfl | rfl | rfl | rfl <;> exact hd _ (Nat.mod_lt _ (by norm_num))

theorem jsonEscapeCp_ascii (c : Nat) (hc : c < 0x110000) : ∀ b ∈ jsonEscapeCp c, b < 128 := by
  intro b hb
  rw [jsonEscapeCp] at hb
  by_cases h34 : c = 34
  · rw [if_pos h34] at hb
    simp only [List.mem_cons, List.not_mem_nil, or_false] at hb
    rcases hb with rfl | rfl <;> omega
  rw [if_neg h34] at hb
  by_cases h92 : c = 92
  · rw [if_pos h92] at hb
    simp only [List.mem_cons, List.not_mem_nil, or_false] at hb
    rcases hb with rfl | rfl <;> omega
  rw [if_neg h92] at hb
  by_cases h8 : c = 8
  · rw [if_pos h8] at hb
    simp only [List.mem_cons, List.not_mem_nil, or_false] at hb
    rcases hb with rfl | rfl <;> omega
  rw [if_neg h8] at hb
  by_cases h9 : c = 9
  · rw [if_pos h9] at hb
    simp only [List.mem_cons, List.not_mem_nil, or_false] at hb
    rcases hb with rfl | rfl <;> omega
  rw [if_neg h9] at hb
  by_cases h10 : c = 10
  · rw [if_pos h10] at hb
    simp only [List.mem_cons, List.not_mem_nil, or_false] at hb
    rcases hb with rfl | rfl <;> omega
  rw [if_neg h10] at hb
  by_cases h12 : c = 12
  · rw [if_pos h12] at hb
    simp only [List.mem_cons, List.not_mem_nil, or_false] at hb
    rcases hb with rfl | rfl <;> omega
  rw [if_neg h12] at hb
  by_cases h13 : c = 13
  · rw [if_pos h13] at hb
    simp only [List.mem_cons, List.not_mem_nil, or_false] at hb
    rcases hb with rfl | rfl <;> omega
  rw [if_neg h13] at hb
  by_cases hctl : c < 0x20
  · rw [if_pos hctl] at hb
    simp only [List.mem_cons] at hb
    rcases hb with rfl | rfl | hb
    · omega
    · omega
    · exact hex4Low_ascii c b hb
  rw [if_neg hctl] at hb
  by_cases h7f : c < 0x7F
  · rw [if_pos h7f] at hb
    simp only [List.mem_cons, List.not_mem_nil, or_false] at hb
    subst hb
    omega
  rw [if_neg h7f] at hb
  by_cases hbmp : c < 0x10000
  · rw [if_pos hbmp] at hb
    simp only [List.mem_cons] at hb
    rcases hb with rfl | rfl | hb
    · omega
    · omega
    · exact hex4Low_ascii c b hb
  rw [if_neg hbmp] at hb
  simp only [List.cons_append, List.mem_cons, List.mem_append] at hb
  rcases hb with rfl | rfl | hb | rfl | rfl | hb
  · omega
  · omega
  · exact hex4Low_ascii _ b hb
  · omega
  · omega
  · exact hex4Low_ascii _ b hb

theorem jsonEscapeStr_ascii (s : PyStr)
    (hs : ∀ c ∈ s, c < 0x110000) : ∀ b ∈ jsonEscapeStr s, b < 128 := by
  intro b hb
  rw [jsonEscapeStr] at hb
  simp only [List.cons_append, List.mem_cons, List.mem_append, List.mem_flatten,
    List.mem_map, List.not_mem_nil, or_false] at hb
  rcases hb with rfl | ⟨l, ⟨c, hc, rfl⟩, hbl⟩ | rfl
  · omega
  · exact jsonEscapeCp_ascii c (hs c hc) b hbl
  · omega

theorem pyIntRepr_ascii (i : Int) : ∀ b ∈ pyIntRepr i, b < 128 := by
  intro b hb
  rw [pyIntRepr] at hb
  split_ifs at hb
  · simp only [List.mem_cons] at hb
    rcases hb with rfl | hb
    · omega
    · have := (pyNatRepr_facts i.natAbs).1 b hb
      omega
  · have := (pyNatRepr_facts i.toNat).1 b hb
    omega

/-! ## Support lemmas: serialization shape of the two cursor dicts -/

theorem dumpsAux_str (f : Nat) (s : PyStr) : dumpsAux (f + 1) (.jstr s) = jsonEscapeStr s := by
  rw [dumpsAux]

theorem dumpsAux_int (f : Nat) (i : Int) : dumpsAux (f + 1) (.jint i) = pyIntRepr i := by
  rw [dumpsAux]

theorem sortKvs_TLC (o : Int) (p : PyStr) :
    sortKvs [(keyOffset, JValue.jint o), (keyDatabase, JValue.jstr p)] =
      [(keyDatabase, JValue.jstr p), (keyOffset, JValue.jint o)] := by
  simp only [sortKvs, insertSortedKV]
  rw [if_neg (by decide)]

theorem sortKvs_QRC (o : Int) (p : PyStr) :
    sortKvs [(keyOffset, JValue.jint o), (keyQueryHash, JValue.jstr p)] =
      [(keyOffset, JValue.jint o), (keyQueryHash, JValue.jstr p)] := by
  simp only [sortKvs, insertSortedKV]
  rw [if_pos (by decide)]

theorem dumps_TLC (o : Int) (p : PyStr) :
    dumpsVal (.jobj [(keyOffset, .jint o), (keyDatabase, .jstr p)]) =
      123 :: (jsonEscapeStr keyDatabase ++ (58 :: 32 :: (jsonEscapeStr p ++
        (44 :: 32 :: (jsonEscapeStr keyOffset ++ (58 :: 32 :: (pyIntRepr o ++ [125]))))))) := by
  rw [dumpsVal,
    show jsize (JValue.jobj [(keyOffset, JValue.jint o), (keyDatabase, JValue.jstr p)]) = 2 + 1
      from rfl,
    dumpsAux]
  rw [sortKvs_TLC o p]
  simp only [List.map_cons, List.map_nil]
  rw [show (2 : Nat) = 1 + 1 from rfl, dumpsAux_str, dumpsAux_int]
  simp only [List.intercalate, List.intersperse, List.flatten, List.append_nil,
    List.cons_append, List.nil_append, List.append_assoc]

theorem dumps_QRC (o : Int) (p : PyStr) :
    dumpsVal (.jobj [(keyOffset, .jint o), (keyQueryHash, .jstr p)]) =
      123 :: (jsonEscapeStr keyOffset ++ (58 :: 32 :: (pyIntRepr o ++
        (44 :: 32 :: (jsonEscapeStr keyQueryHash ++ (58 :: 32 :: (jsonEscapeStr p ++ [125]))))))) := by
  rw [dumpsVal,
    show jsize (JValue.jobj [(keyOffset, JValue.jint o), (keyQueryHash, JValue.jstr p)]) = 2 + 1
      from rfl,
    dumpsAux]
  rw [sortKvs_QRC o p]
  simp only [List.map_cons, List.map_nil]
  rw [show (2 : Nat) = 1 + 1 from rfl, dumpsAux_str, dumpsAux_int]
  simp only [List.intercalate, List.intersperse, List.flatten, List.append_nil,
    List.cons_append, List.nil_append, List.append_assoc]

/-! ## Support lemmas: parse walk over the serialized cursor objects -/

theorem jsonWs_digit_false (d : Nat) (h : 48 ≤ d) : jsonWs d = false := by
  simp only [jsonWs, Bool.or_eq_false_iff, decide_eq_false_iff_not]
  omega

theorem skipWs_intRepr (i : Int) (rest : PyStr) :
    skipWs (pyIntRepr i ++ rest) = pyIntRepr i ++ rest := by
  by_cases hneg : i < 0
  · rw [pyIntRepr, if_pos hneg, List.cons_append]
    exact skipWs_not 45 _ rfl
  · obtain ⟨_, _, d0, ds, heq, hd0a, _, _⟩ := pyNatRepr_facts i.toNat
    rw [pyIntRepr, if_neg hneg, heq, List.cons_append]
    exact skipWs_not d0 _ (jsonWs_digit_false d0 hd0a)

theorem parse_walk_TLC (f : Nat) (i : Int) (p : PyStr)
    (hp : ∀ c ∈ p, c < 0x110000 ∧ ¬(0xD800 ≤ c ∧ c < 0xE000)) :
    parseValue (f + 4)
      (123 :: (jsonEscapeStr keyDatabase ++ (58 :: 32 :: (jsonEscapeStr p ++
        (44 :: 32 :: (jsonEscapeStr keyOffset ++ (58 :: 32 :: (pyIntRepr i ++ [125])))))))) =
      .ok (.jobj [(keyDatabase, .jstr p), (keyOffset, .jint i)], []) := by
  have hkD : ∀ c ∈ keyDatabase, c < 0x110000 ∧ ¬(0xD800 ≤ c ∧ c < 0xE000) := by decide
  have hkO : ∀ c ∈ keyOffset, c < 0x110000 ∧ ¬(0xD800 ≤ c ∧ c < 0xE000) := by decide
  rw [show f + 4 = (f + 3) + 1 from rfl, parseValue]
  rw [if_neg (by decide), if_pos rfl]
  rw [jsonEscapeStr_append keyDatabase, skipWs_not 34 _ rfl]
  rw [show f + 3 = (f + 2) + 1 from rfl, parseObj]
  rw [lexString_escape keyDatabase _ hkD]
  simp only []
  rw [skipWs_not 58 _ rfl]
  simp only []
  rw [skipWs_space, jsonEscapeStr_append p, skipWs_not 34 _ rfl]
  rw [show f + 2 = (f + 1) + 1 from rfl, parseValue_str (f + 1) p _ hp]
  simp only []
  rw [skipWs_not 44 _ rfl]
  rw [parseMembers]
  rw [skipWs_space, jsonEscapeStr_append keyOffset, skipWs_not 34 _ rfl]
  simp only []
  rw [lexString_escape keyOffset _ hkO]
  simp only []
  rw [skipWs_not 58 _ rfl]
  simp only []
  rw [skipWs_space, skipWs_intRepr]
  rw [parseValue_intRepr f i 125 [] (Or.inr rfl)]
  simp only []
  rw [show skipWs [125] = [125] from rfl]
  rw [insertKV, if_neg (by decide), insertKV]
  rw [parseMembers]
  all_goals intro r0 h0
  all_goals rw [jsonEscapeStr_append] at h0
  all_goals simp at h0

theorem parse_walk_QRC (f : Nat) (i : Int) (p : PyStr)
    (hp : ∀ c ∈ p, c < 0x110000 ∧ ¬(0xD800 ≤ c ∧ c < 0xE000)) :
    parseValue (f + 4)
      (123 :: (jsonEscapeStr keyOffset ++ (58 :: 32 :: (pyIntRepr i ++
        (44 :: 32 :: (jsonEscapeStr keyQueryHash ++ (58 :: 32 :: (jsonEscapeStr p ++ [125])))))))) =
      .ok (.jobj [(keyOffset, .jint i), (keyQueryHash, .jstr p)], []) := by
  have hkO : ∀ c ∈ keyOffset, c < 0x110000 ∧ ¬(0xD800 ≤ c ∧ c < 0xE000) := by decide
  have hkQ : ∀ c ∈ keyQueryHash, c < 0x110000 ∧ ¬(0xD800 ≤ c ∧ c < 0xE000) := by decide
  rw [show f + 4 = (f + 3) + 1 from rfl, parseValue]
  rw [if_neg (by decide), if_pos rfl]
  rw [jsonEscapeStr_append keyOffset, skipWs_not 34 _ rfl]
  rw [show f + 3 = (f + 2) + 1 from rfl, parseObj]
  rw [lexString_escape keyOffset _ hkO]
  simp only []
  rw [skipWs_not 58 _ rfl]
  simp only []
  rw [skipWs_space, skipWs_intRepr]
  rw [show f + 2 = (f + 1) + 1 from rfl, parseValue_intRepr (f + 1) i 44 _ (Or.inl rfl)]
  simp only []
  rw [skipWs_not 44 _ rfl]
  rw [parseMembers]
  rw [skipWs_space, jsonEscapeStr_append keyQueryHash, skipWs_not 34 _ rfl]
  simp only []
  rw [lexString_escape keyQueryHash _ hkQ]
  simp only []
  rw [skipWs_not 58 _ rfl]
  simp only []
  rw [skipWs_space, jsonEscapeStr_append p, skipWs_not 34 _ rfl]
  rw [parseValue_str f p _ hp]
  simp only []
  rw [show skipWs [125] = [125] from rfl]
  rw [insertKV, if_neg (by decide), insertKV]
  rw [parseMembers]
  all_goals intro r0 h0
  all_goals rw [jsonEscapeStr_append] at h0
  all_goals simp at h0

theorem cursor_text_len (A B : PyStr) :
    (123 :: (A ++ (58 :: 32 :: B))).length + 1 = (A.length + B.length) + 4 := by
  simp only [List.length_cons, List.length_append]
  omega

theorem loads_TLC (i : Int) (p : PyStr)
    (hp : ∀ c ∈ p, c < 0x110000 ∧ ¬(0xD800 ≤ c ∧ c < 0xE000)) :
    loads (123 :: (jsonEscapeStr keyDatabase ++ (58 :: 32 :: (jsonEscapeStr p ++
        (44 :: 32 :: (jsonEscapeStr keyOffset ++ (58 :: 32 :: (pyIntRepr i ++ [125])))))))) =
      .ok (.jobj [(keyDatabase, .jstr p), (keyOffset, .jint i)]) := by
  rw [loads]
  simp only [skipWs_not 123 _ rfl]
  rw [cursor_text_len, parse_walk_TLC _ i p hp]
  rfl

theorem loads_QRC (i : Int) (p : PyStr)
    (hp : ∀ c ∈ p, c < 0x110000 ∧ ¬(0xD800 ≤ c ∧ c < 0xE000)) :
    loads (123 :: (jsonEscapeStr keyOffset ++ (58 :: 32 :: (pyIntRepr i ++
        (44 :: 32 :: (jsonEscapeStr keyQueryHash ++ (58 :: 32 :: (jsonEscapeStr p ++ [125])))))))) =
      .ok (.jobj [(keyOffset, .jint i), (keyQueryHash, .jstr p)]) := by
  rw [loads]
  simp only [skipWs_not 123 _ rfl]
  rw [cursor_text_len, parse_walk_QRC _ i p hp]
  rfl

/-! ## Support lemmas: keyword application and the decode pipeline -/

theorem kwargs_TLC (n v : JValue) :
    kwargsApply (.jobj [(keyDatabase, v), (keyOffset, n)]) keyDatabase = .ok (n, v) := rfl

theorem kwargs_QRC (n v : JValue) :
    kwargsApply (.jobj [(keyOffset, n), (keyQueryHash, v)]) keyQueryHash = .ok (n, v) := rfl

theorem kwargs_TLC_as_QRC (n v : JValue) :
    kwargsApply (.jobj [(keyDatabase, v), (keyOffset, n)]) keyQueryHash = .error () := rfl

theorem kwargs_QRC_as_TLC (n v : JValue) :
    kwargsApply (.jobj [(keyOffset, n), (keyQueryHash, v)]) keyDatabase = .error () := rfl

theorem except_bind_ok {α β : Type} (a : α) (g : α → Except Unit β) :
    (Except.ok a >>= g) = g a := rfl

theorem except_bind_error {α β : Type} (g : α → Except Unit β) :
    ((Except.error () : Except Unit α) >>= g) = .error () := rfl

theorem decode_stages (T : PyStr) (hT : ∀ b ∈ T, b < 128) :
    urlsafe_b64decode (utf8Encode (pyOfString (strOfPy (urlsafe_b64encode (utf8Encode T))))) =
      .ok T ∧ utf8Decode T = .ok T := by
  have hT256 : ∀ b ∈ utf8Encode T, b < 256 := by
    rw [utf8Encode_ascii T hT]
    intro b hb
    exact lt_trans (hT b hb) (by norm_num)
  constructor
  · have h1 := urlsafe_b64_roundtrip (utf8Encode T) hT256
    rw [utf8Encode_ascii T hT] at h1 ⊢
    exact h1
  · have h2 := utf8_roundtrip T (fun c hc => ⟨lt_trans (hT c hc) (by norm_num),
      by have := hT c hc; omega⟩)
    rw [utf8Encode_ascii T hT] at h2
    exact h2

theorem cursor_text_ascii_TLC (o : Int) (p : PyStr) (hp : ∀ c ∈ p, c < 0x110000) :
    ∀ b ∈ (123 :: (jsonEscapeStr keyDatabase ++ (58 :: 32 :: (jsonEscapeStr p ++
        (44 :: 32 :: (jsonEscapeStr keyOffset ++ (58 :: 32 :: (pyIntRepr o ++ [125])))))))),
      b < 128 := by
  intro b hb
  have hKD := jsonEscapeStr_ascii keyDatabase (by decide) b
  have hKO := jsonEscapeStr_ascii keyOffset (by decide) b
  have hP := jsonEscapeStr_ascii p hp b
  have hI := pyIntRepr_ascii o b
  simp only [List.mem_cons, List.mem_append, List.not_mem_nil, or_false] at hb
  rcases hb with rfl | hb | rfl | rfl | hb | rfl | rfl | hb | rfl | rfl | hb | rfl
  · norm_num
  · exact hKD hb
  · norm_num
  · norm_num
  · exact hP hb
  · norm_num
  · norm_num
  · exact hKO hb
  · norm_num
  · norm_num
  · exact hI hb
  · norm_num

theorem cursor_text_ascii_QRC (o : Int) (p : PyStr) (hp : ∀ c ∈ p, c < 0x110000) :
    ∀ b ∈ (123 :: (jsonEscapeStr keyOffset ++ (58 :: 32 :: (pyIntRepr o ++
        (44 :: 32 :: (jsonEscapeStr keyQueryHash ++ (58 :: 32 :: (jsonEscapeStr p ++ [125])))))))),
      b < 128 := by
  intro b hb
  have hKQ := jsonEscapeStr_ascii keyQueryHash (by decide) b
  have hKO := jsonEscapeStr_ascii keyOffset (by decide) b
  have hP := jsonEscapeStr_ascii p hp b
  have hI := pyIntRepr_ascii o b
  simp only [List.mem_cons, List.mem_append, List.not_mem_nil, or_false] at hb
  rcases hb with rfl | hb | rfl | rfl | hb | rfl | rfl | hb | rfl | rfl | hb | rfl
  · norm_num
  · exact hKO hb
  · norm_num
  · norm_num
  · exact hI hb
  · norm_num
  · norm_num
  · exact hKQ hb
  · norm_num
  · norm_num
  · exact hP hb
  · norm_num

theorem TLC_decode_encode (o : Int) (db : String) :
    TableListCursor.decode (TableListCursor.make o db).encode =
      .ok (TableListCursor.make o db) := by
  have hp := pyOfString_scalar db
  show TableListCursor.decode (strOfPy (urlsafe_b64encode (utf8Encode
      (dumpsVal (.jobj [(keyOffset, .jint o), (keyDatabase, .jstr (pyOfString db))]))))) = _
  rw [dumps_TLC o (pyOfString db)]
  have hT := cursor_text_ascii_TLC o (pyOfString db) (fun c hc => (hp c hc).1)
  obtain ⟨hs1, hs2⟩ := decode_stages _ hT
  rw [TableListCursor.decode, hs1]
  simp only [except_bind_ok]
  rw [hs2]
  simp only [except_bind_ok]
  rw [loads_TLC o (pyOfString db) hp]
  simp only [except_bind_ok]
  rw [kwargs_TLC]
  rfl

theorem QRC_decode_encode (o : Int) (qh : String) :
    QueryResultCursor.decode (QueryResultCursor.make o qh).encode =
      .ok (QueryResultCursor.make o qh) := by
  have hp := pyOfString_scalar qh
  show QueryResultCursor.decode (strOfPy (urlsafe_b64encode (utf8Encode
      (dumpsVal (.jobj [(keyOffset, .jint o), (keyQueryHash, .jstr (pyOfString qh))]))))) = _
  rw [dumps_QRC o (pyOfString qh)]
  have hT := cursor_text_ascii_QRC o (pyOfString qh) (fun c hc => (hp c hc).1)
  obtain ⟨hs1, hs2⟩ := decode_stages _ hT
  rw [QueryResultCursor.decode, hs1]
  simp only [except_bind_ok]
  rw [hs2]
  simp only [except_bind_ok]
  rw [loads_QRC o (pyOfString qh) hp]
  simp only [except_bind_ok]
  rw [kwargs_QRC]
  rfl

theorem TLC_token_fails_as_QRC (o : Int) (db : String) :
    QueryResultCursor.decode (TableListCursor.make o db).encode = .error () := by
  have hp := pyOfString_scalar db
  show QueryResultCursor.decode (strOfPy (urlsafe_b64encode (utf8Encode
      (dumpsVal (.jobj [(keyOffset, .jint o), (keyDatabase, .jstr (pyOfString db))]))))) = _
  rw [dumps_TLC o (pyOfString db)]
  have hT := cursor_text_ascii_TLC o (pyOfString db) (fun c hc => (hp c hc).1)
  obtain ⟨hs1, hs2⟩ := decode_stages _ hT
  rw [QueryResultCursor.decode, hs1]
  simp only [except_bind_ok]
  rw [hs2]
  simp only [except_bind_ok]
  rw [loads_TLC o (pyOfString db) hp]
  simp only [except_bind_ok]
  rw [kwargs_TLC_as_QRC]
  rfl

theorem QRC_token_fails_as_TLC (o : Int) (qh : String) :
    TableListCursor.decode (QueryResultCursor.make o qh).encode = .error () := by
  have hp := pyOfString_scalar qh
  show TableListCursor.decode (strOfPy (urlsafe_b64encode (utf8Encode
      (dumpsVal (.jobj [(keyOffset, .jint o), (keyQueryHash, .jstr (pyOfString qh))]))))) = _
  rw [dumps_QRC o (pyOfString qh)]
  have hT := cursor_text_ascii_QRC o (pyOfString qh) (fun c hc => (hp c hc).1)
  obtain ⟨hs1, hs2⟩ := decode_stages _ hT
  rw [TableListCursor.decode, hs1]
  simp only [except_bind_ok]
  rw [hs2]
  simp only [except_bind_ok]
  rw [loads_QRC o (pyOfString qh) hp]
  simp only [except_bind_ok]
  rw [kwargs_QRC_as_TLC]
  rfl

theorem strOfPy_pyOfString (s : String) : strOfPy (pyOfString s) = s := by
  rw [pyOfString, strOfPy, List.map_map]
  have h : s.data.map (Char.ofNat ∘ Char.toNat) = s.data := by
    rw [show Char.ofNat ∘ Char.toNat = fun c => Char.ofNat (Char.toNat c) from rfl]
    rw [List.map_congr_left (fun c _ => Char.ofNat_toNat c)]
    exact List.map_id' s.data
  rw [h]

/-! ## Support lemmas: decode as a staged pipeline -/

/-- The first three stages of both decode classmethods: base64 decode of
the token, utf-8 decode of the bytes, json.loads of the text. -/
def cursorJson (token : String) : Except Unit JValue := do
  let bytes ← urlsafe_b64decode (utf8Encode (pyOfString token))
  let cps ← utf8Decode bytes
  loads cps

theorem TLC_decode_eq_stages (token : String) :
    TableListCursor.decode token =
      (cursorJson token) >>= (fun v => (kwargsApply v keyDatabase) >>=
        (fun fields => .ok ⟨fields.1, fields.2⟩)) := by
  rw [TableListCursor.decode, cursorJson]
  cases urlsafe_b64decode (utf8Encode (pyOfString token)) with
  | error e => rfl
  | ok bs =>
    simp only [except_bind_ok]
    cases utf8Decode bs with
    | error e => rfl
    | ok cps =>
      simp only [except_bind_ok]

theorem QRC_decode_eq_stages (token : String) :
    QueryResultCursor.decode token =
      (cursorJson token) >>= (fun v => (kwargsApply v keyQueryHash) >>=
        (fun fields => .ok ⟨fields.1, fields.2⟩)) := by
  rw [QueryResultCursor.decode, cursorJson]
  cases urlsafe_b64decode (utf8Encode (pyOfString token)) with
  | error e => rfl
  | ok bs =>
    simp only [except_bind_ok]
    cases utf8Decode bs with
    | error e => rfl
    | ok cps =>
      simp only [except_bind_ok]

theorem kwargsApply_error_iff (v : JValue) (disc : PyStr) :
    kwargsApply v disc = .error () ↔
      (∀ kvs, v ≠ .jobj kvs) ∨
      (∃ kvs, v = .jobj kvs ∧
        ((∃ kv ∈ kvs, ¬(kv.1 = keyOffset ∨ kv.1 = disc)) ∨
          lookupKV kvs keyOffset = none)) := by
  cases v
  case jobj kvs =>
    rw [kwargsApply]
    constructor
    · intro h
      right
      refine ⟨kvs, rfl, ?_⟩
      by_cases hall : kvs.all (fun kv => kv.1 == keyOffset || kv.1 == disc)
      · rw [if_pos hall] at h
        right
        cases hlk : lookupKV kvs keyOffset with
        | none => rfl
        | some ov =>
          rw [hlk] at h
          exact absurd h (by simp)
      · left
        simp only [List.all_eq_true, Bool.or_eq_true, beq_iff_eq] at hall
        push_neg at hall
        obtain ⟨kv, hmem, hne⟩ := hall
        exact ⟨kv, hmem, by tauto⟩
    · intro h
      rcases h with h | ⟨kvs2, heq, hbad⟩
      · exact absurd rfl (h kvs)
      · injection heq with heq2
        subst heq2
        rcases hbad with ⟨kv, hmem, hne⟩ | hnone
        · by_cases hall : kvs.all (fun kv => kv.1 == keyOffset || kv.1 == disc)
          · exfalso
            simp only [List.all_eq_true, Bool.or_eq_true, beq_iff_eq] at hall
            exact hne (hall kv hmem)
          · rw [if_neg hall]
        · by_cases hall : kvs.all (fun kv => kv.1 == keyOffset || kv.1 == disc)
          · rw [if_pos hall, hnone]
          · rw [if_neg hall]
  all_goals exact ⟨fun _ => Or.inl (fun kvs h => JValue.noConfusion h), fun _ => rfl⟩

theorem kwargsApply_ok (kvs : List (PyStr × JValue)) (disc : PyStr) (ov : JValue)
    (hall : ∀ kv ∈ kvs, kv.1 = keyOffset ∨ kv.1 = disc)
    (hov : lookupKV kvs keyOffset = some ov) :
    kwargsApply (.jobj kvs) disc = .ok (ov, (lookupKV kvs disc).getD (.jstr [])) := by
  rw [kwargsApply]
  rw [if_pos ?hb, hov]
  case hb =>
    simp only [List.all_eq_true, Bool.or_eq_true, beq_iff_eq]
    exact hall

theorem staged_error_iff {α : Type} (token : String) (disc : PyStr)
    (mk : JValue → JValue → α) :
    ((cursorJson token) >>= (fun v => (kwargsApply v disc) >>=
        (fun fields => .ok (mk fields.1 fields.2))) = (.error () : Except Unit α)) ↔
      cursorJson token = .error () ∨
      (∃ v, cursorJson token = .ok v ∧ kwargsApply v disc = .error ()) := by
  cases hcj : cursorJson token with
  | error e =>
    cases e
    simp [except_bind_error]
  | ok v =>
    simp only [except_bind_ok]
    cases hk : kwargsApply v disc with
    | error e =>
      cases e
      simp [hk, except_bind_error]
    | ok f =>
      simp [hk, except_bind_ok]

/-! ## Support lemmas: stripping and the hex digest -/

theorem pyOfString_append (a b : String) :
    pyOfString (a ++ b) = pyOfString a ++ pyOfString b := by
  rw [pyOfString, pyOfString, pyOfString, String.data_append, List.map_append]

theorem dropWhile_append_cases (p : Nat → Bool) : ∀ (s t : List Nat),
    (s ++ t).dropWhile p =
      if s.dropWhile p = [] then t.dropWhile p else s.dropWhile p ++ t := by
  intro s
  induction s with
  | nil => intro t; simp
  | cons c s2 ih =>
    intro t
    rw [List.cons_append, List.dropWhile_cons, List.dropWhile_cons]
    cases hp : p c
    · simp only [Bool.false_eq_true, if_false]
      rw [if_neg (by simp)]
      rfl
    · simp only [if_true]
      exact ih t

theorem dropWhile_all_space (p : Nat → Bool) (s : List Nat) (h : ∀ c ∈ s, p c = true) :
    s.dropWhile p = [] := by
  induction s with
  | nil => rfl
  | cons c s2 ih =>
    rw [List.dropWhile_cons, if_pos (h c (by simp))]
    exact ih (fun x hx => h x (by simp [hx]))

theorem pyStrip_all_space (s : PyStr) (h : ∀ c ∈ s, pyIsSpace c = true) :
    pyStrip s = [] := by
  rw [pyStrip, dropWhile_all_space pyIsSpace s h]
  rfl

theorem pyStrip_pad (s pad1 pad2 : PyStr)
    (h1 : ∀ c ∈ pad1, pyIsSpace c = true) (h2 : ∀ c ∈ pad2, pyIsSpace c = true) :
    pyStrip (pad1 ++ (s ++ pad2)) = pyStrip s := by
  rw [pyStrip, pyStrip, (takeWhile_append_all pad1 (s ++ pad2) pyIsSpace h1).2]
  by_cases hs : s.dropWhile pyIsSpace = []
  · rw [dropWhile_append_cases, if_pos hs, dropWhile_all_space pyIsSpace pad2 h2, hs]
  · rw [dropWhile_append_cases, if_neg hs, List.reverse_append]
    have h2r : ∀ c ∈ pad2.reverse, pyIsSpace c = true := by
      intro c hc
      exact h2 c (List.mem_reverse.mp hc)
    rw [(takeWhile_append_all pad2.reverse (s.dropWhile pyIsSpace).reverse pyIsSpace h2r).2]

theorem hexDigitLow_hex_range (k : Nat) (hk : k < 16) :
    (48 ≤ hexDigitLow k ∧ hexDigitLow k ≤ 57) ∨ (97 ≤ hexDigitLow k ∧ hexDigitLow k ≤ 102) := by
  rw [hexDigitLow]
  split_ifs <;> omega

theorem word8hex_facts (x : Nat) : (word8hex x).length = 8 ∧
    ∀ c ∈ word8hex x, (48 ≤ c ∧ c ≤ 57) ∨ (97 ≤ c ∧ c ≤ 102) := by
  constructor
  · rfl
  · intro c hc
    rw [word8hex] at hc
    simp only [List.mem_cons, List.not_mem_nil, or_false] at hc
    rcases hc with rfl | rfl | rfl | rfl | rfl | rfl | rfl | rfl <;>
      exact hexDigitLow_hex_range _ (Nat.mod_lt _ (by norm_num))

theorem sha256hex_facts (msg : List Nat) : (sha256hex msg).length = 64 ∧
    ∀ c ∈ sha256hex msg, (48 ≤ c ∧ c ≤ 57) ∨ (97 ≤ c ∧ c ≤ 102) := by
  have hlen : ∀ x, (word8hex x).length = 8 := fun x => (word8hex_facts x).1
  constructor
  · simp only [sha256hex, List.length_append, hlen]
  · intro c hc
    simp only [sha256hex, List.mem_append] at hc
    rcases hc with ((((((h | h) | h) | h) | h) | h) | h) | h <;>
      exact (word8hex_facts _).2 c h

/-! ## Claim C1 -/

/-- C1: refuted as stated; the encoder serializes with the Python json
default separators, which place a space after each colon and comma, so
the token of TableListCursor(offset=50, database=\"test\") is the base64
of a spaced JSON text and differs from the compact token required by
the claim (and shown in the encode docstring). -/
theorem encode_uses_spaced_separators :
    (TableListCursor.make 50 "test").encode =
      "eyJkYXRhYmFzZSI6ICJ0ZXN0IiwgIm9mZnNldCI6IDUwfQ==" ∧
    (TableListCursor.make 50 "test").encode ≠
      "eyJkYXRhYmFzZSI6InRlc3QiLCJvZmZzZXQiOjUwfQ==" := by
  constructor
  · rfl
  · decide

/-! ## Claim C2 -/

/-- C2: encode/decode round trip for both cursor variants: a cursor
built from an integer offset and a string discriminator decodes from
its own encoded token to a field-wise equal cursor (proved for every
integer offset, hence in particular for the non-negative ones the
claim quantifies over). -/
theorem decode_encode_roundtrip (o : Int) (db qh : String) :
    TableListCursor.decode (TableListCursor.make o db).encode =
      .ok (TableListCursor.make o db) ∧
    QueryResultCursor.decode (QueryResultCursor.make o qh).encode =
      .ok (QueryResultCursor.make o qh) :=
  ⟨TLC_decode_encode o db, QRC_decode_encode o qh⟩

/-! ## Claim C3 -/

/-- C3: amended characterization.  Decode of either variant fails
exactly when the base64 / UTF-8 / JSON pipeline fails, the parsed JSON
value is not an object, some object key is neither offset nor the
variant's discriminator, or the offset key is absent.  Contrary to the
claim, a missing discriminator does not fail: decode then succeeds and
returns a cursor whose discriminator is silently defaulted to the
empty string, and stored field values are never type checked. -/
theorem decode_error_characterization (token : String) :
    (TableListCursor.decode token = .error () ↔
      cursorJson token = .error () ∨
      (∃ v, cursorJson token = .ok v ∧
        ((∀ kvs, v ≠ .jobj kvs) ∨
         (∃ kvs, v = .jobj kvs ∧
           ((∃ kv ∈ kvs, ¬(kv.1 = keyOffset ∨ kv.1 = keyDatabase)) ∨
             lookupKV kvs keyOffset = none))))) ∧
    (QueryResultCursor.decode token = .error () ↔
      cursorJson token = .error () ∨
      (∃ v, cursorJson token = .ok v ∧
        ((∀ kvs, v ≠ .jobj kvs) ∨
         (∃ kvs, v = .jobj kvs ∧
           ((∃ kv ∈ kvs, ¬(kv.1 = keyOffset ∨ kv.1 = keyQueryHash)) ∨
             lookupKV kvs keyOffset = none))))) ∧
    (∀ kvs ov, cursorJson token = .ok (.jobj kvs) →
      (∀ kv ∈ kvs, kv.1 = keyOffset ∨ kv.1 = keyDatabase) →
      lookupKV kvs keyOffset = some ov →
      TableListCursor.decode token =
        .ok ⟨ov, (lookupKV kvs keyDatabase).getD (.jstr [])⟩) ∧
    (∀ kvs ov, cursorJson token = .ok (.jobj kvs) →
      (∀ kv ∈ kvs, kv.1 = keyOffset ∨ kv.1 = keyQueryHash) →
      lookupKV kvs keyOffset = some ov →
      QueryResultCursor.decode token =
        .ok ⟨ov, (lookupKV kvs keyQueryHash).getD (.jstr [])⟩) := by
  refine ⟨?_, ?_, ?_, ?_⟩
  · rw [TLC_decode_eq_stages]
    exact (staged_error_iff token keyDatabase fun a b => (⟨a, b⟩ : TableListCursor)).trans
      (or_congr Iff.rfl (exists_congr fun v =>
        and_congr Iff.rfl (kwargsApply_error_iff v keyDatabase)))
  · rw [QRC_decode_eq_stages]
    exact (staged_error_iff token keyQueryHash fun a b => (⟨a, b⟩ : QueryResultCursor)).trans
      (or_congr Iff.rfl (exists_congr fun v =>
        and_congr Iff.rfl (kwargsApply_error_iff v keyQueryHash)))
  · intro kvs ov hcj hall hov
    rw [TLC_decode_eq_stages, hcj]
    simp only [except_bind_ok]
    rw [kwargsApply_ok kvs keyDatabase ov hall hov]
    simp only [except_bind_ok]
  · intro kvs ov hcj hall hov
    rw [QRC_decode_eq_stages, hcj]
    simp only [except_bind_ok]
    rw [kwargsApply_ok kvs keyQueryHash ov hall hov]
    simp only [except_bind_ok]

/-- C3: counterexample to the claim as stated.  The first token is the
URL-safe base64 of the JSON text of a dict holding only offset; the
claim requires decode to fail because the required field database is
missing, yet TableListCursor.decode succeeds and silently defaults the
discriminator to the empty string.  The second token is not even valid
URL-safe base64 (it holds a bang), yet decode still succeeds because
Python's base64 decoder discards non-alphabet bytes. -/
theorem decode_missing_field_counterexample :
    TableListCursor.decode "eyJvZmZzZXQiOiA1fQ==" = .ok ⟨.jint 5, .jstr []⟩ ∧
    TableListCursor.decode "e!yJvZmZzZXQiOiA1fQ==" = .ok ⟨.jint 5, .jstr []⟩ :=
  ⟨rfl, rfl⟩

/-! ## Claim C4 -/

/-- C4: validate_params raises exactly when the stored database
differs from the expected one; in particular the cursor encoded with
database test and decoded back fails validation against prod. -/
theorem validate_params_iff_mismatch :
    (∀ (c : TableListCursor) (d : String),
      c.validate_params d = .error () ↔ jvalBeqStr c.database d = false) ∧
    (∀ c, TableListCursor.decode (TableListCursor.make 50 "test").encode = .ok c →
      c.validate_params "prod" = .error ()) := by
  constructor
  · intro c d
    cases h : jvalBeqStr c.database d <;>
      simp [TableListCursor.validate_params, h]
  · intro c hc
    rw [TLC_decode_encode 50 "test"] at hc
    injection hc with hc
    subst hc
    rfl

/-! ## Claim C5 -/

/-- C5: validate_query raises exactly when the stored hash differs
from the hash of the expected query; hence a cursor minted with the
hash of Q1 fails against every Q2 whose hash differs and passes for
every Q2 with the same hash. -/
theorem validate_query_iff_hash_mismatch :
    (∀ (c : QueryResultCursor) (q : String),
      c.validate_query q = .error () ↔
        jvalBeqStr c.query_hash (hash_query q) = false) ∧
    (∀ (o : Int) (q1 q2 : String), hash_query q1 ≠ hash_query q2 →
      (QueryResultCursor.make o (hash_query q1)).validate_query q2 = .error ()) ∧
    (∀ (o : Int) (q1 q2 : String), hash_query q1 = hash_query q2 →
      (QueryResultCursor.make o (hash_query q1)).validate_query q2 = .ok ()) := by
  refine ⟨?_, ?_, ?_⟩
  · intro c q
    cases h : jvalBeqStr c.query_hash (hash_query q) <;>
      simp [QueryResultCursor.validate_query, h]
  · intro o q1 q2 hne
    show (if (pyOfString (hash_query q1) == pyOfString (hash_query q2)) = true
      then (Except.ok () : Except Unit Unit) else .error ()) = .error ()
    refine if_neg ?_
    intro hbeq
    refine hne ?_
    have heq := eq_of_beq hbeq
    rw [← strOfPy_pyOfString (hash_query q1), heq, strOfPy_pyOfString]
  · intro o q1 q2 h12
    show (if (pyOfString (hash_query q1) == pyOfString (hash_query q2)) = true
      then (Except.ok () : Except Unit Unit) else .error ()) = .ok ()
    rw [h12]
    exact if_pos (beq_self_eq_true _)

/-! ## Claim C6 -/

/-- C6: hash_query depends only on the whitespace-stripped text: any
all-whitespace padding on either side leaves the hash unchanged, every
whitespace-only string hashes like the empty string, and internal
whitespace stays significant. -/
theorem hash_query_whitespace_invariant :
    (∀ (q pad1 pad2 : String), (∀ c ∈ pyOfString pad1, pyIsSpace c = true) →
      (∀ c ∈ pyOfString pad2, pyIsSpace c = true) →
      hash_query (pad1 ++ q ++ pad2) = hash_query q) ∧
    (∀ w : String, (∀ c ∈ pyOfString w, pyIsSpace c = true) →
      hash_query w = hash_query "") ∧
    hash_query "SELECT * FROM table" ≠ hash_query "SELECT  *  FROM  table" := by
  refine ⟨?_, ?_, ?_⟩
  · intro q pad1 pad2 h1 h2
    rw [hash_query, hash_query, pyOfString_append, pyOfString_append,
      List.append_assoc, pyStrip_pad _ _ _ h1 h2]
  · intro w hw
    rw [hash_query, hash_query, pyStrip_all_space _ hw,
      show pyStrip (pyOfString "") = [] from rfl]
  · decide

/-! ## Claim C7 -/

/-- C7: hash_query always returns a digest of exactly 64 code points,
each a lowercase hexadecimal character (a decimal digit or a letter
from a to f). -/
theorem hash_query_hex64 (q : String) :
    (pyOfString (hash_query q)).length = 64 ∧
    ∀ c ∈ pyOfString (hash_query q), (48 ≤ c ∧ c ≤ 57) ∨ (97 ≤ c ∧ c ≤ 102) := by
  have hfacts := sha256hex_facts (utf8Encode (pyStrip (pyOfString q)))
  have hascii : ∀ c ∈ sha256hex (utf8Encode (pyStrip (pyOfString q))), c < 128 := by
    intro c hc
    rcases hfacts.2 c hc with h | h <;> omega
  rw [hash_query, pyOfString_strOfPy _ hascii]
  exact hfacts

/-! ## Claim C10 -/

/-- C10: cursor tokens are variant-exclusive: a token encoded by one
cursor variant always fails to decode as the other variant, because
the discriminator key of one variant is an unexpected keyword argument
for the other dataclass constructor. -/
theorem cross_variant_decode_fails (o : Int) (db qh : String) :
    QueryResultCursor.decode (TableListCursor.make o db).encode = .error () ∧
    TableListCursor.decode (QueryResultCursor.make o qh).encode = .error () :=
  ⟨TLC_token_fails_as_QRC o db, QRC_token_fails_as_TLC o qh⟩

/-! ## Claim C8 -/

/-- C8: rewriter modelled from the spec.  When the token stream of the
prepared query holds no LIMIT or OFFSET keyword token, the rewriter
returns the trimmed query (one trailing semicolon stripped) followed by
the pagination clause; the semicolon example and the empty input behave
as claimed. -/
theorem rewrite_appends_when_no_keyword (q : String) (limit offset : Nat)
    (toks : List SqlTok)
    (htok : tokenizeSql (prepQuery q) = .ok toks)
    (hno : ∀ t ∈ toks, isLimitOffsetTok t = false) :
    addPaginationToQuery q limit offset =
      .ok (strOfPy (prepQuery q ++ paginationClause limit offset)) ∧
    addPaginationToQuery "SELECT * FROM users;" 10 0 =
      .ok "SELECT * FROM users LIMIT 10 OFFSET 0" ∧
    addPaginationToQuery "" 5 7 = .ok " LIMIT 5 OFFSET 7" := by
  refine ⟨?_, rfl, rfl⟩
  have hany : toks.any isLimitOffsetTok = false := by
    rw [List.any_eq_false]
    intro x hx
    simp [hno x hx]
  rw [addPaginationToQuery]
  simp only [htok, hany, Bool.false_eq_true, if_false]

/-- Witness for C8 at the concrete query SELECT 1 with limit 3 and
offset 4, whose token stream holds no pagination keyword. -/
theorem rewrite_appends_witness :
    addPaginationToQuery "SELECT 1" 3 4 =
      .ok (strOfPy (prepQuery "SELECT 1" ++ paginationClause 3 4)) :=
  (rewrite_appends_when_no_keyword "SELECT 1" 3 4
    [.word (pyOfString "SELECT"), .num [49]] rfl (by decide)).1

/-! ## Claim C9 -/

/-- C9: rewriter modelled from the spec.  Given the token stream of the
prepared query, the rewriter returns the wrapped subquery form exactly
when some token is a LIMIT or OFFSET keyword token; quoted-identifier,
string-literal and comment tokens never count as keywords, and the
pinned examples (a query with LIMIT gets wrapped, an identifier merely
containing limit does not) behave as claimed. -/
theorem rewrite_wraps_iff_keyword (q : String) (limit offset : Nat)
    (toks : List SqlTok)
    (htok : tokenizeSql (prepQuery q) = .ok toks) :
    (addPaginationToQuery q limit offset =
        .ok (strOfPy (wrapHead ++ prepQuery q ++ wrapTail ++
          paginationClause limit offset)) ↔
      ∃ t ∈ toks, isLimitOffsetTok t = true) ∧
    (∀ s, isLimitOffsetTok (.quoted s) = false) ∧
    (∀ s, isLimitOffsetTok (.lit s) = false) ∧
    (∀ s, isLimitOffsetTok (.comment s) = false) ∧
    addPaginationToQuery "SELECT * FROM t LIMIT 5" 10 0 =
      .ok "SELECT * FROM (SELECT * FROM t LIMIT 5) AS paginated_subquery LIMIT 10 OFFSET 0" ∧
    addPaginationToQuery "SELECT * FROM my_limit_table WHERE id > 10" 10 0 =
      .ok "SELECT * FROM my_limit_table WHERE id > 10 LIMIT 10 OFFSET 0" := by
  refine ⟨?_, fun s => rfl, fun s => rfl, fun s => rfl, rfl, rfl⟩
  constructor
  · intro hres
    by_cases hany : toks.any isLimitOffsetTok
    · exact List.any_eq_true.mp hany
    · exfalso
      rw [Bool.not_eq_true] at hany
      rw [addPaginationToQuery] at hres
      simp only [htok, hany, Bool.false_eq_true, if_false] at hres
      injection hres with hres
      have hlen := congrArg (fun s => s.data.length) hres
      simp only [strOfPy, List.length_map, List.length_append] at hlen
      rw [show wrapHead.length = 15 from rfl, show wrapTail.length = 23 from rfl] at hlen
      omega
  · intro hex
    have hany : toks.any isLimitOffsetTok = true := List.any_eq_true.mpr hex
    rw [addPaginationToQuery]
    simp only [htok, hany, if_true]

/-- Witness for C9 at a concrete query whose token stream holds the
keyword token LIMIT, so the rewriter wraps it. -/
theorem rewrite_wraps_witness :
    addPaginationToQuery "SELECT * FROM t LIMIT 5" 10 0 =
      .ok (strOfPy (wrapHead ++ prepQuery "SELECT * FROM t LIMIT 5" ++ wrapTail ++
        paginationClause 10 0)) :=
  ((rewrite_wraps_iff_keyword "SELECT * FROM t LIMIT 5" 10 0
    [.word (pyOfString "SELECT"), .sym 42, .word (pyOfString "FROM"), .word [116],
     .word (pyOfString "LIMIT"), .num [53]] rfl).1).mpr
    ⟨.word (pyOfString "LIMIT"), by simp, by decide⟩

end McpHydrolix
